import Mathlib

/-!
Shallow embedding of the MrBanana HLS downloader and metadata merge engine.

The merge-engine definitions follow src/mr_banana/scraper/merger.py and the
HLS definitions follow src/mr_banana/utils/hls.py.  Python strings are
modelled by Lean strings operated on via List Char (so everything evaluates
inside the kernel), Python dicts by insertion-ordered association lists,
Python list.sort (a stable sort) by a structurally recursive stable
insertion sort parameterised by the strict key order, and threads, sockets
and the file system by explicit oracles collected in an environment record.
-/

namespace MrBanana

/-! ### String helpers, all structurally recursive over List Char -/

def listStarts : List Char → List Char → Bool
  | [], _ => true
  | _ :: _, [] => false
  | p :: ps, c :: cs => p == c && listStarts ps cs

def hasSub (pat : List Char) : List Char → Bool
  | [] => listStarts pat []
  | c :: cs => listStarts pat (c :: cs) || hasSub pat cs

/-- Python str.strip modulo the exact whitespace set. -/
def trimChars (cs : List Char) : List Char :=
  ((cs.dropWhile Char.isWhitespace).reverse.dropWhile Char.isWhitespace).reverse

def pyStrip (s : String) : String := String.mk (trimChars s.data)

def pyLower (s : String) : String := String.mk (s.data.map Char.toLower)

def strContains (t pat : String) : Bool := hasSub pat.data t.data

/-- Python str.startswith. -/
def pyStarts (s pat : String) : Bool := listStarts pat.data s.data

/-- Python re.sub of whitespace runs by a single space (aux flag: inside a run). -/
def collapseWsAux : Bool → List Char → List Char
  | _, [] => []
  | inWs, c :: cs =>
    if c.isWhitespace then
      if inWs then collapseWsAux true cs else ' ' :: collapseWsAux true cs
    else c :: collapseWsAux false cs

def collapseWs (cs : List Char) : List Char := collapseWsAux false cs

/-! ### Stable sorting, modelling Python list.sort with a key function.
Python sorts are stable; we model a stable ascending sort by the strict key
order lt: an element is inserted after all already-placed elements whose key
is not greater, so equal keys keep their original relative order. -/

def insertAfterTies {α : Type} (lt : α → α → Bool) (a : α) : List α → List α
  | [] => [a]
  | b :: l => if lt a b then a :: b :: l else b :: insertAfterTies lt a l

def stableSortBy {α : Type} (lt : α → α → Bool) (l : List α) : List α :=
  l.foldl (fun acc a => insertAfterTies lt a acc) []

/-! ### Python value model.
Values appearing in CrawlResult.data are None, strings or (nested) lists;
dict-valued entries are not modelled (no claim involves them). -/

inductive PyVal where
  | pnone
  | pstr (s : String)
  | plist (xs : List PyVal)

/-- Python emptiness test used by the merger: v in (None, "") or v == [] (or v == \x7b\x7d). -/
def PyVal.isEmptyVal : PyVal → Bool
  | .pnone => true
  | .pstr s => s == ""
  | .plist xs => xs.isEmpty

/-! ### CrawlResult (src/mr_banana/scraper/types.py) -/

structure CrawlResult where
  source : String
  title : Option String := none
  external_id : Option String := none
  original_url : Option String := none
  data : List (String × PyVal) := []

/-! ### Insertion-ordered dictionary operations (Python dict semantics) -/

def dget (d : List (String × PyVal)) (k : String) : Option PyVal :=
  match d.find? (fun kv => kv.1 == k) with
  | some kv => some kv.2
  | none => none

/-- Python dict.get with default None. -/
def dgetVal (d : List (String × PyVal)) (k : String) : PyVal :=
  (dget d k).getD .pnone

def dmem (d : List (String × PyVal)) (k : String) : Bool :=
  (dget d k).isSome

/-- Python dict assignment: overwrite in place, or append a new key at the end. -/
def dset (d : List (String × PyVal)) (k : String) (v : PyVal) : List (String × PyVal) :=
  if dmem d k then d.map (fun kv => if kv.1 == k then (k, v) else kv) else d ++ [(k, v)]

/-! ### Field-source preferences (merger.py) -/

abbrev FieldSources := List (String × List String)

def fsGet (m : FieldSources) (k : String) : Option (List String) :=
  match m.find? (fun kv => kv.1 == k) with
  | some kv => some kv.2
  | none => none

/-- Python truthiness of the optional field_sources dict (None and the empty dict are falsy). -/
def fsTruthy : Option FieldSources → Bool
  | none => false
  | some m => !m.isEmpty

def default_field_source_priority : FieldSources :=
  [("title", ["javtrailers"]), ("plot", ["dmm"]), ("actors", ["javtrailers"]),
   ("poster_url", ["javtrailers"]), ("fanart_url", ["javtrailers"]),
   ("preview_urls", ["javtrailers"]), ("trailer_url", ["javtrailers"]),
   ("tags", ["javtrailers"]), ("release", ["javtrailers"]), ("runtime", ["javtrailers"]),
   ("directors", ["javtrailers"]), ("series", ["javtrailers"]), ("studio", ["javtrailers"])]

def field_disabled (fieldName : String) (fs : Option FieldSources) : Bool :=
  if !fsTruthy fs then false
  else
    match fs with
    | none => false
    | some m =>
      match fsGet m fieldName with
      | none => false
      | some v => v.isEmpty

/-- Python list.index wrapped in Option. -/
def listIndex (l : List String) (s : String) : Option Nat :=
  match l with
  | [] => none
  | a :: rest => if a == s then some 0 else (listIndex rest s).map (· + 1)

def rank_for (fieldName src : String) (fs : Option FieldSources) : Nat :=
  let selected : List String :=
    match fs with
    | some m => if fsTruthy (some m) then (fsGet m fieldName).getD [] else []
    | none => []
  let pref : Option (List String) :=
    match fs with
    | some m =>
      if fsTruthy (some m) && (fsGet m fieldName).isSome then some selected
      else fsGet default_field_source_priority fieldName
    | none => fsGet default_field_source_priority fieldName
  match pref with
  | none => 10000
  | some p => if p.isEmpty then 10000 else (listIndex p src).getD 10000

/-- Strict order on (rank, original index) pairs used to sort candidates. -/
def pickLT (fieldName : String) (fs : Option FieldSources) (a b : Nat × CrawlResult) : Bool :=
  rank_for fieldName a.2.source fs < rank_for fieldName b.2.source fs ||
    (rank_for fieldName a.2.source fs == rank_for fieldName b.2.source fs && a.1 < b.1)

def pick_by_priority (results : List CrawlResult) (fieldName : String)
    (getter : CrawlResult → PyVal) (fs : Option FieldSources) : PyVal :=
  if field_disabled fieldName fs then .pnone
  else
    match (stableSortBy (pickLT fieldName fs) results.enum).find?
        (fun p => !(getter p.2).isEmptyVal) with
    | some p => getter p.2
    | none => .pnone

/-! ### Text-quality heuristics (merger.py) -/

def isAlnum (c : Char) : Bool := c.isAlpha || c.isDigit

def is_probably_code (s : String) : Bool :=
  let t := trimChars s.data
  let a := t.takeWhile isAlnum
  let r := t.dropWhile isAlnum
  match r with
  | '-' :: r2 =>
    let b := r2.takeWhile isAlnum
    let r3 := r2.dropWhile isAlnum
    !a.isEmpty && !b.isEmpty && r3.isEmpty
  | _ => false

def wsDrop (cs : List Char) : List Char := cs.dropWhile Char.isWhitespace

/-- One-position match for a pattern of shape opener, \s*, one marker, \s*, closer. -/
def bracketHere (ops : List Char) (markers : List (List Char)) (cls : List Char)
    (cs : List Char) : Bool :=
  match cs with
  | [] => false
  | c :: rest =>
    ops.contains c &&
      (let r1 := wsDrop rest
       markers.any (fun m =>
         listStarts m r1 &&
           (match wsDrop (r1.drop m.length) with
            | c2 :: _ => cls.contains c2
            | [] => false)))

def bracketSearch (ops : List Char) (markers : List (List Char)) (cls : List Char) :
    List Char → Bool
  | [] => false
  | c :: cs => bracketHere ops markers cls (c :: cs) || bracketSearch ops markers cls cs

def looks_meta_plot (s : String) : Bool :=
  let t := pyStrip s
  if t == "" then false
  else if ["番号搜磁链", "管理你的成人影片", "分享你的想法"].any (fun m => strContains t m) then
    true
  else if strContains t "发布日期" && (strContains t "时长" || strContains t "長度") &&
      (strContains t "分钟" || strContains t "分鐘") then true
  else if strContains t "發行日期" && strContains t "長度" && strContains t "分鐘" then true
  else if bracketSearch ['[', '［'] ["发布日期".data] [']', '］'] t.data then true
  else if bracketSearch ['[', '［'] ["时长".data] [']', '］'] t.data then true
  else if bracketSearch ['【'] ["發行日期".data, "发行日期".data, "发布日期".data] ['】'] t.data then
    true
  else if bracketSearch ['【'] ["長度".data, "长度".data, "时长".data] ['】'] t.data then true
  else false

def placeholderMarkers : List String :=
  ["javascriptを有効", "java scriptを有効", "javascriptの設定方法", "無料サンプル",
   "サンプル動画", "中古品", "画像をクリックして拡大", "拡大サンプル画像", "安心な梱包",
   "请启用javascript", "如何设置javascript", "单击图像放大", "图像仅供说明", "安全包装"]

def looks_placeholder_plot (s : String) : Bool :=
  let t := (collapseWs (trimChars s.data)).map Char.toLower
  if t.isEmpty then true
  else if placeholderMarkers.any (fun m => hasSub m.data t) then true
  else t.length < 20

def looks_bad_plot (s : String) : Bool :=
  looks_placeholder_plot s || looks_meta_plot s

def valid_url : PyVal → Option String
  | .pstr s =>
    let t := pyStrip s
    if t == "" then none
    else if pyStarts t "http://" || pyStarts t "https://" then some t
    else none
  | _ => none

/-! ### DMM artwork derivation (merger.py).
The regex (?i)ps\.jpg(?=$|\?) is modelled by sufHere / sufSearch / sufReplace:
a case-insensitive occurrence of p<x>.jpg followed by end of string or a
question mark; sufReplace rewrites the first such occurrence (re.sub count=1)
with the lowercase replacement text. -/

def sufHere (x : Char) : List Char → Bool
  | c1 :: c2 :: c3 :: c4 :: c5 :: c6 :: rest =>
    c1.toLower == 'p' && c2.toLower == x && c3 == '.' && c4.toLower == 'j' &&
      c5.toLower == 'p' && c6.toLower == 'g' &&
      (match rest with | [] => true | r :: _ => r == '?')
  | _ => false

def sufSearch (x : Char) : List Char → Bool
  | [] => false
  | c :: cs => sufHere x (c :: cs) || sufSearch x cs

def sufReplace (x y : Char) : List Char → List Char
  | [] => []
  | c :: cs =>
    if sufHere x (c :: cs) then 'p' :: y :: '.' :: 'j' :: 'p' :: 'g' :: cs.drop 5
    else c :: sufReplace x y cs

def derive_dmm_artwork (coverUrl : Option String) : Option String × Option String :=
  let u := pyStrip (coverUrl.getD "")
  if u == "" then (none, none)
  else
    let lowChars := u.data.map Char.toLower
    if !hasSub "pics.dmm.co.jp/".data lowChars then (none, none)
    else if sufSearch 's' u.data then
      (some u, some (String.mk (sufReplace 's' 'l' u.data)))
    else if sufSearch 'l' u.data then
      (some (String.mk (sufReplace 'l' 's' u.data)), some u)
    else (none, none)

/-! ### merge_results (merger.py), decomposed block by block in source order -/

def optTruthy : Option String → Bool
  | some s => !(s == "")
  | none => false

/-- First result whose extracted optional string is truthy, and its value. -/
def firstTruthy (f : CrawlResult → Option String) (results : List CrawlResult) :
    Option String :=
  match results.find? (fun r => optTruthy (f r)) with
  | some r => f r
  | none => none

def titleGetter (r : CrawlResult) : PyVal :=
  match r.title with
  | some t => .pstr (pyStrip t)
  | none => .pnone

def fallbackTitle (results : List CrawlResult) : Option String :=
  match results.find? (fun r => optTruthy r.title) with
  | some r => r.title
  | none => none

def mergedTitle (results : List CrawlResult) (fs : Option FieldSources) : Option String :=
  if field_disabled "title" fs then none
  else
    match pick_by_priority results "title" titleGetter fs with
    | .pstr s =>
      if !(pyStrip s == "") && !is_probably_code s then some (pyStrip s)
      else fallbackTitle results
    | _ => fallbackTitle results

def plotGetter (r : CrawlResult) : PyVal := dgetVal r.data "plot"

/-- The body of the for-else scan over all results for a non-bad plot. -/
def goodPlotOf (r : CrawlResult) : Option String :=
  match dgetVal r.data "plot" with
  | .pstr v => if !(pyStrip v == "") && !looks_bad_plot v then some (pyStrip v) else none
  | _ => none

def plotBlock (results : List CrawlResult) (fs : Option FieldSources)
    (d : List (String × PyVal)) : List (String × PyVal) :=
  if field_disabled "plot" fs then d
  else
    match pick_by_priority results "plot" plotGetter fs with
    | .pstr s =>
      if !(pyStrip s == "") && !looks_bad_plot s then dset d "plot" (.pstr (pyStrip s))
      else
        match results.findSome? goodPlotOf with
        | some v => dset d "plot" (.pstr v)
        | none => if !(pyStrip s == "") then dset d "plot" (.pstr (pyStrip s)) else d
    | _ =>
      match results.findSome? goodPlotOf with
      | some v => dset d "plot" (.pstr v)
      | none => d

def loopKeys : List String :=
  ["actors", "studio", "series", "release", "runtime", "directors", "tags"]

def keyGetter (k : String) (r : CrawlResult) : PyVal := dgetVal r.data k

def loopStep (results : List CrawlResult) (fs : Option FieldSources)
    (d : List (String × PyVal)) (k : String) : List (String × PyVal) :=
  if field_disabled k fs then d
  else
    let v := pick_by_priority results k (keyGetter k) fs
    if !v.isEmptyVal then dset d k v else d

def loopBlock (results : List CrawlResult) (fs : Option FieldSources)
    (d : List (String × PyVal)) : List (String × PyVal) :=
  loopKeys.foldl (loopStep results fs) d

def trailerGetter (r : CrawlResult) : PyVal :=
  match valid_url (dgetVal r.data "trailer_url") with
  | some t => .pstr t
  | none => .pnone

def trailerBlock (results : List CrawlResult) (fs : Option FieldSources)
    (d : List (String × PyVal)) : List (String × PyVal) :=
  if field_disabled "trailer_url" fs then d
  else
    match pick_by_priority results "trailer_url" trailerGetter fs with
    | .pstr s => dset d "trailer_url" (.pstr s)
    | _ => d

def posterGetter (r : CrawlResult) : PyVal :=
  match valid_url (dgetVal r.data "poster_url") with
  | some t => .pstr t
  | none =>
    match (derive_dmm_artwork (valid_url (dgetVal r.data "cover_url"))).1 with
    | some t => .pstr t
    | none =>
      match valid_url (dgetVal r.data "cover_url") with
      | some t => .pstr t
      | none => .pnone

def fanartGetter (r : CrawlResult) : PyVal :=
  match valid_url (dgetVal r.data "fanart_url") with
  | some t => .pstr t
  | none =>
    match (derive_dmm_artwork (valid_url (dgetVal r.data "cover_url"))).2 with
    | some t => .pstr t
    | none => .pnone

def artworkBlock (results : List CrawlResult) (fs : Option FieldSources)
    (d : List (String × PyVal)) : List (String × PyVal) :=
  let d1 :=
    if field_disabled "poster_url" fs then d
    else
      match pick_by_priority results "poster_url" posterGetter fs with
      | .pstr s => dset d "poster_url" (.pstr s)
      | _ => d
  let d2 :=
    if field_disabled "fanart_url" fs then d1
    else
      match pick_by_priority results "fanart_url" fanartGetter fs with
      | .pstr s => dset d1 "fanart_url" (.pstr s)
      | _ => d1
  if field_disabled "preview_urls" fs then d2
  else
    match pick_by_priority results "preview_urls" (keyGetter "preview_urls") fs with
    | .plist xs => if !xs.isEmpty then dset d2 "preview_urls" (.plist xs) else d2
    | _ => d2

def fallbackInner (d : List (String × PyVal)) (kvs : List (String × PyVal)) :
    List (String × PyVal) :=
  kvs.foldl
    (fun d kv =>
      if dmem d kv.1 then d
      else if kv.2.isEmptyVal then d
      else dset d kv.1 kv.2)
    d

def fallbackPass (d : List (String × PyVal)) (results : List CrawlResult) :
    List (String × PyVal) :=
  results.foldl (fun d r => fallbackInner d r.data) d

def merge_results (results : List CrawlResult) (fs : Option FieldSources) : CrawlResult :=
  let d1 := plotBlock results fs []
  let d2 := loopBlock results fs d1
  let d3 := trailerBlock results fs d2
  let d4 := artworkBlock results fs d3
  { source := "merged"
    title := mergedTitle results fs
    external_id := firstTruthy (fun r => r.external_id) results
    original_url := firstTruthy (fun r => r.original_url) results
    data := fallbackPass d4 results }

/-! ### HLS variant selection (hls.py, _parse_target_height and _select_variant_url) -/

def isDigits (cs : List Char) : Bool := !cs.isEmpty && cs.all Char.isDigit

def digitsVal (cs : List Char) : Nat :=
  cs.foldl (fun acc c => acc * 10 + (c.toNat - 48)) 0

/-- Python str.endswith. -/
def pyEnds (s pat : String) : Bool := listStarts pat.data.reverse s.data.reverse

def parseTargetHeight (pref : Option String) : Option Nat :=
  match pref with
  | none => none
  | some p =>
    if p == "" then none
    else
      let s := pyLower (pyStrip p)
      if s == "best" || s == "auto" then none
      else if pyEnds s "p" && isDigits s.data.dropLast then some (digitsVal s.data.dropLast)
      else if isDigits s.data then some (digitsVal s.data)
      else none

/-- One candidate built from a master-playlist entry: absolute URI, bandwidth
(int(si.bandwidth or 0)) and optional height (second resolution component). -/
structure Variant where
  uri : String
  bandwidth : Nat
  height : Option Nat
deriving DecidableEq, Repr

/-- A master-playlist entry before URI filtering: pl.uri may be missing or empty. -/
structure MasterVariant where
  uri : Option String
  bandwidth : Nat
  height : Option Nat
deriving DecidableEq, Repr

/-- urljoin is modelled as concatenation of the base (which ends in a slash) with
the relative reference; absolute http(s) URIs are kept as they are. -/
def absolutize (base u : String) : String :=
  if pyStarts u "http://" || pyStarts u "https://" then u else base ++ u

def buildCandidates (base : String) (pls : List MasterVariant) : List Variant :=
  pls.filterMap (fun pl =>
    match pl.uri with
    | none => none
    | some u =>
      if u == "" then none else some ⟨absolutize base u, pl.bandwidth, pl.height⟩)

/-- Sort key (x[2] or 0, x[1]) of the two reverse=True quality sorts. -/
def hKey (v : Variant) : Nat × Nat := (v.height.getD 0, v.bandwidth)

/-- Strict key-greater order: a stable descending sort by hKey is a stable sort by
this strict order. -/
def qualityGT (a b : Variant) : Bool :=
  (hKey b).1 < (hKey a).1 || ((hKey b).1 == (hKey a).1 && (hKey b).2 < (hKey a).2)

/-- Sort key (abs((x[2] or 0) - target), -(x[1] or 0)) of the closest-height sort. -/
def distKey (targetH : Nat) (v : Variant) : Nat × Int :=
  ((((v.height.getD 0 : Int)) - (targetH : Int)).natAbs, -((v.bandwidth : Int)))

def distLT (targetH : Nat) (a b : Variant) : Bool :=
  (distKey targetH a).1 < (distKey targetH b).1 ||
    ((distKey targetH a).1 == (distKey targetH b).1 &&
      (distKey targetH a).2 < (distKey targetH b).2)

/-- Strict bandwidth-greater order for the final reverse=True bandwidth sort. -/
def bwGT (a b : Variant) : Bool := b.bandwidth < a.bandwidth

def underTarget (cands : List Variant) (targetH : Nat) : List Variant :=
  cands.filter (fun c =>
    match c.height with
    | some h => h ≤ targetH
    | none => false)

def knownHeight (cands : List Variant) : List Variant :=
  cands.filter (fun c => c.height.isSome)

/-- Lines 88-108 of hls.py: selection among the already-built candidates. -/
def selectFromCandidates (cands : List Variant) (target : Option Nat) : Option String :=
  if cands.isEmpty then none
  else
    match target with
    | none => ((stableSortBy qualityGT cands).head?).map (fun c => c.uri)
    | some targetH =>
      if !(underTarget cands targetH).isEmpty then
        ((stableSortBy qualityGT (underTarget cands targetH)).head?).map (fun c => c.uri)
      else if !(knownHeight cands).isEmpty then
        ((stableSortBy (distLT targetH) (knownHeight cands)).head?).map (fun c => c.uri)
      else ((stableSortBy bwGT cands).head?).map (fun c => c.uri)

def select_variant_url (pls : List MasterVariant) (base : String) (target : Option Nat) :
    Option String :=
  if pls.isEmpty then none
  else selectFromCandidates (buildCandidates base pls) target

/-- Comparison described by claim C1 for the null-target case.  Modelled from the
spec: unknown-height variants sort strictly below every known-height variant, then
height dominates and bandwidth breaks ties. -/
def specNullKey (v : Variant) : Nat × Nat × Nat :=
  ((if v.height.isSome then 1 else 0), v.height.getD 0, v.bandwidth)

def specNullLT (a b : Variant) : Prop :=
  (specNullKey a).1 < (specNullKey b).1 ∨
    ((specNullKey a).1 = (specNullKey b).1 ∧
      ((specNullKey a).2.1 < (specNullKey b).2.1 ∨
        ((specNullKey a).2.1 = (specNullKey b).2.1 ∧
          (specNullKey a).2.2 < (specNullKey b).2.2)))

/-! ### HLS download pipeline model (hls.py, HLSDownloader.download).
Threads, sockets and the file system are replaced by oracles in Env: net gives the
parsed playlist returned for a URL (none = falsy response text); keyFetch gives the
fetched key content for a URL as an abstract byte count (none = falsy); fetchSeg i a
is the outcome of fetch attempt a of segment i (attempt 0 is the scheduler pass,
attempts 1 to 3 the post-pass serial retries); cancel k is the value read by the
k-th cancel_event.is_set() call of the run, counted in execution order; pick t
chooses which in-flight future as_completed yields at drain step t; remuxOk is the
ffmpeg exit status.  The model is sequential: a worker's own cancel check and fetch
are performed at the moment its future is drained. -/

structure HLSKey where
  uri : String
deriving DecidableEq, Repr

structure HLSSegment where
  uri : String
deriving DecidableEq, Repr

structure ParsedPlaylist where
  segments : List HLSSegment
  keys : List (Option HLSKey)
  variants : List MasterVariant
deriving DecidableEq, Repr

inductive FetchOut where
  | content (n : Nat)
  | raise
deriving DecidableEq, Repr

structure Env where
  net : String → Option ParsedPlaylist
  keyFetch : String → Option Nat
  fetchSeg : Nat → Nat → FetchOut
  cancel : Nat → Bool
  pick : Nat → Nat
  remuxOk : Bool

inductive SegRes where
  | ok (n : Nat)
  | exn
  | cancelled
deriving DecidableEq, Repr

/-- One _download_segment call: a cancel check, then the fetch, writing the local
file when the content is non-empty.  Returns the advanced check counter, the
outcome and the file write (segment index and size). -/
def downloadSegment (env : Env) (k i a : Nat) : Nat × SegRes × Option (Nat × Nat) :=
  if env.cancel k then (k + 1, .cancelled, none)
  else
    match env.fetchSeg i a with
    | .raise => (k + 1, .exn, none)
    | .content n => if 0 < n then (k + 1, .ok n, some (i, n)) else (k + 1, .ok 0, none)

/-- Per-segment local files of the temp directory, newest write first. -/
def fset (files : List (Nat × Nat)) (i n : Nat) : List (Nat × Nat) := (i, n) :: files

def fget (files : List (Nat × Nat)) (i : Nat) : Option Nat :=
  match files.find? (fun p => p.1 == i) with
  | some p => some p.2
  | none => none

def applyWrite (files : List (Nat × Nat)) (w : Option (Nat × Nat)) : List (Nat × Nat) :=
  match w with
  | some (i, n) => fset files i n
  | none => files

structure SchedSt where
  k : Nat
  pending : List Nat
  nextIdx : Nat
  files : List (Nat × Nat)
  failed : List Nat
  completed : Nat
  totalBytes : Nat
  submitted : Nat
  hw : Nat
deriving DecidableEq, Repr

inductive SchedOut where
  | cancelled (k hw : Nat)
  | done (st : SchedSt)
deriving DecidableEq, Repr

/-- submit_next: submit the next segment if the iterator is not exhausted. -/
def submitNext (n : Nat) (st : SchedSt) : SchedSt :=
  if st.nextIdx < n then
    { st with
      pending := st.pending ++ [st.nextIdx],
      nextIdx := st.nextIdx + 1,
      submitted := st.submitted + 1,
      hw := max st.hw (st.pending.length + 1) }
  else st

/-- The warm-up submission loop: up to max_workers submissions, a cancel check
before each, breaking when the iterator is exhausted. -/
def seedLoop (env : Env) (n : Nat) : Nat → SchedSt → SchedOut
  | 0, st => .done st
  | c + 1, st =>
    if env.cancel st.k then .cancelled (st.k + 1) st.hw
    else if st.nextIdx < n then
      seedLoop env n c (submitNext n { st with k := st.k + 1 })
    else .done { st with k := st.k + 1 }

/-- Index into pending chosen by as_completed at drain step t. -/
def pickIdx (env : Env) (t : Nat) (st : SchedSt) : Nat := env.pick t % st.pending.length

/-- The drained segment. -/
def pickSeg (env : Env) (t : Nat) (st : SchedSt) : Nat := st.pending.getD (pickIdx env t st) 0

/-- The pending set after removing the drained future. -/
def restPending (env : Env) (t : Nat) (st : SchedSt) : List Nat :=
  st.pending.eraseIdx (pickIdx env t st)

/-- State after draining a worker that returned size nsz (size 0 is a failure). -/
def drainOk (st : SchedSt) (k1 : Nat) (pending2 : List Nat) (i nsz : Nat)
    (w : Option (Nat × Nat)) : SchedSt :=
  { st with
    k := k1,
    pending := pending2,
    files := applyWrite st.files w,
    completed := if 0 < nsz then st.completed + 1 else st.completed,
    totalBytes := st.totalBytes + nsz,
    failed := if 0 < nsz then st.failed else st.failed ++ [i] }

/-- State after draining a worker that raised a generic exception. -/
def drainExn (st : SchedSt) (k1 : Nat) (pending2 : List Nat) (i : Nat) : SchedSt :=
  { st with k := k1, pending := pending2, failed := st.failed ++ [i] }

/-- Advance the cancel-check counter by one. -/
def bumpK (st : SchedSt) : SchedSt := { st with k := st.k + 1 }

/-- The drain loop: while futures are pending, check cancellation, drain one
completion (running the worker: its cancel check, fetch and file write), classify
it, check cancellation again and submit one replacement.  Structured over fuel;
any fuel at least pending.length + (n - nextIdx) is enough to reach the real
exit (pending = []). -/
def schedLoop (env : Env) (n : Nat) : Nat → Nat → SchedSt → SchedOut
  | 0, _, st => .done st
  | fuel + 1, t, st =>
    match st.pending with
    | [] => .done st
    | _ :: _ =>
      if env.cancel st.k then .cancelled (st.k + 1) st.hw
      else
        match downloadSegment env (st.k + 1) (pickSeg env t st) 0 with
        | (k1, .cancelled, _) => .cancelled k1 st.hw
        | (k1, .ok nsz, w) =>
          if env.cancel k1 then .cancelled (k1 + 1) st.hw
          else
            schedLoop env n fuel (t + 1)
              (submitNext n
                (bumpK (drainOk st k1 (restPending env t st) (pickSeg env t st) nsz w)))
        | (k1, .exn, _) =>
          if env.cancel k1 then .cancelled (k1 + 1) st.hw
          else
            schedLoop env n fuel (t + 1)
              (submitNext n (bumpK (drainExn st k1 (restPending env t st) (pickSeg env t st))))

def initSched (k0 : Nat) : SchedSt :=
  { k := k0, pending := [], nextIdx := 0, files := [], failed := [], completed := 0,
    totalBytes := 0, submitted := 0, hw := 0 }

def runScheduler (env : Env) (maxW n k0 : Nat) : SchedOut :=
  match seedLoop env n maxW (initSched k0) with
  | .cancelled k hw => .cancelled k hw
  | .done st => schedLoop env n (maxW + n + 1) 0 st

def hwOf : SchedOut → Nat
  | .cancelled _ hw => hw
  | .done st => st.hw

inductive RetrySegOut where
  | cancelled (k : Nat)
  | exn (k : Nat)
  | done (k : Nat) (files : List (Nat × Nat)) (attempts sleeps : Nat)
deriving DecidableEq, Repr

/-- The inner for-range-3 retry of one segment: attempt, break on success,
sleep(1) after each failure.  used counts attempts so far, sl counts sleeps. -/
def retrySegLoop (env : Env) (i : Nat) :
    Nat → Nat → List (Nat × Nat) → Nat → Nat → RetrySegOut
  | 0, k, files, used, sl => .done k files used sl
  | r + 1, k, files, used, sl =>
    match downloadSegment env k i (used + 1) with
    | (k1, .cancelled, _) => .cancelled k1
    | (k1, .exn, _) => .exn k1
    | (k1, .ok nsz, w) =>
      if 0 < nsz then .done k1 (applyWrite files w) (used + 1) sl
      else retrySegLoop env i r k1 (applyWrite files w) (used + 1) (sl + 1)

inductive RetryOut where
  | cancelled (k : Nat)
  | exn (k : Nat)
  | done (k : Nat) (files : List (Nat × Nat)) (log : List (Nat × Nat × Nat))
deriving DecidableEq, Repr

/-- The serial post-pass retry over the missing segments: a cancel check before
each segment, then up to 3 attempts for it; the log records one entry
(segment, attempts, sleeps) per processed segment. -/
def retryPass (env : Env) :
    List Nat → Nat → List (Nat × Nat) → List (Nat × Nat × Nat) → RetryOut
  | [], k, files, log => .done k files log
  | i :: rest, k, files, log =>
    if env.cancel k then .cancelled (k + 1)
    else
      match retrySegLoop env i 3 (k + 1) files 0 0 with
      | .cancelled k2 => .cancelled k2
      | .exn k2 => .exn k2
      | .done k2 files2 used sl => retryPass env rest k2 files2 (log ++ [(i, used, sl)])

/-- Segments whose local file is missing or zero-length, in sequence order. -/
def missingOf (n : Nat) (files : List (Nat × Nat)) : List Nat :=
  (List.range n).filter (fun i =>
    match fget files i with
    | none => true
    | some sz => sz == 0)

/-- m3u8_url.rsplit with one slash, first component, plus a slash. -/
def baseOf (url : String) : String :=
  let r := url.data.reverse.dropWhile (fun c => !(c == '/'))
  if r.isEmpty then url ++ "/" else String.mk r.reverse

inductive ResolveOut where
  | cancelled (k : Nat)
  | fetchFail (k : Nat)
  | noSegments (k : Nat)
  | media (pl : ParsedPlaylist) (url : String) (k : Nat)
deriving DecidableEq, Repr

/-- The two-iteration playlist-resolution loop: fetch, cancel check, break on
segments, else select a variant and retry once, else fail with no segments. -/
def resolveLoop (env : Env) (target : Option Nat) :
    Nat → String → Nat → ResolveOut
  | 0, _, k => .noSegments k
  | fuel + 1, url, k =>
    match env.net url with
    | none => .fetchFail k
    | some pl =>
      if env.cancel k then .cancelled (k + 1)
      else if !pl.segments.isEmpty then .media pl url (k + 1)
      else
        match select_variant_url pl.variants (baseOf url) target with
        | some vurl => resolveLoop env target fuel vurl (k + 1)
        | none => .noSegments (k + 1)

/-- The key-download loop: absolutize the key URI, fetch it; on success save the
content as key.key and rewrite the URI to that local name; on a falsy fetch the
URI stays the absolutized remote one.  Returns the rewritten keys and the files
written to the temp directory. -/
def processKeys (env : Env) (base : String) :
    List (Option HLSKey) → List (Option HLSKey) × List (String × Nat)
  | [] => ([], [])
  | none :: rest =>
    let pk := processKeys env base rest
    (none :: pk.1, pk.2)
  | some key :: rest =>
    let pk := processKeys env base rest
    if key.uri == "" then (some key :: pk.1, pk.2)
    else
      match env.keyFetch (absolutize base key.uri) with
      | some c => (some { uri := "key.key" } :: pk.1, ("key.key", c) :: pk.2)
      | none => (some { uri := absolutize base key.uri } :: pk.1, pk.2)

/-- The local file name seg_%05d.ts of segment i. -/
def segName (i : Nat) : String :=
  "seg_" ++ String.mk (List.replicate (5 - (toString i).length) '0') ++ toString i ++ ".ts"

inductive Outcome where
  | success
  | failedGeneric
  | cancelled
deriving DecidableEq, Repr

/-- Observable result of one download run: the outcome (True return, False return,
or a DownloadCancelled raise), the number of executed is_set() calls, whether the
temp directory was created and whether it was removed before returning, the key
files written, the serialized local.m3u8 model (its keys and its segment URIs),
the resolved media playlist and URL, the final segment files, the high-water
in-flight count, the scheduler's failed list and the retry log. -/
structure DLResult where
  outcome : Outcome
  checks : Nat
  tempCreated : Bool
  tempRemoved : Bool
  keyFiles : List (String × Nat)
  manifest : Option (List (Option HLSKey) × List String)
  resolved : Option (ParsedPlaylist × String)
  files : List (Nat × Nat)
  hw : Nat
  failedSegs : List Nat
  retryLog : List (Nat × Nat × Nat)
deriving DecidableEq, Repr

def baseResult : DLResult :=
  { outcome := .success, checks := 0, tempCreated := false, tempRemoved := false,
    keyFiles := [], manifest := none, resolved := none, files := [], hw := 0,
    failedSegs := [], retryLog := [] }

/-- HLSDownloader.download, sequentialized over the Env oracles.  The temp
directory is created only after playlist resolution succeeds, and the try/finally
removes it on every path afterwards, so tempRemoved equals tempCreated in every
branch. -/
def download (env : Env) (url : String) (maxW : Nat) (pref : Option String) : DLResult :=
  if env.cancel 0 then { baseResult with outcome := .cancelled, checks := 1 }
  else
    match resolveLoop env (parseTargetHeight pref) 2 url 1 with
    | .cancelled k => { baseResult with outcome := .cancelled, checks := k }
    | .fetchFail k => { baseResult with outcome := .failedGeneric, checks := k }
    | .noSegments k => { baseResult with outcome := .failedGeneric, checks := k }
    | .media pl murl k =>
      let pk := processKeys env (baseOf murl) pl.keys
      let n := pl.segments.length
      let locals := (List.range n).map segName
      match runScheduler env maxW n k with
      | .cancelled k2 hw =>
        { baseResult with
          outcome := .cancelled, checks := k2, tempCreated := true,
          tempRemoved := true, keyFiles := pk.2, resolved := some (pl, murl), hw := hw }
      | .done st =>
        if env.cancel st.k then
          { baseResult with
            outcome := .cancelled, checks := st.k + 1,
            tempCreated := true, tempRemoved := true, keyFiles := pk.2,
            resolved := some (pl, murl), files := st.files, hw := st.hw,
            failedSegs := st.failed }
        else
          match (if st.failed.isEmpty then RetryOut.done (st.k + 1) st.files []
                 else retryPass env (missingOf n st.files) (st.k + 1) st.files []) with
          | .cancelled k3 =>
            { baseResult with
              outcome := .cancelled, checks := k3, tempCreated := true,
              tempRemoved := true, keyFiles := pk.2, resolved := some (pl, murl),
              files := st.files, hw := st.hw, failedSegs := st.failed }
          | .exn k3 =>
            { baseResult with
              outcome := .failedGeneric, checks := k3,
              tempCreated := true, tempRemoved := true, keyFiles := pk.2,
              resolved := some (pl, murl), files := st.files, hw := st.hw,
              failedSegs := st.failed }
          | .done k3 files2 log =>
            if env.cancel k3 then
              { baseResult with
                outcome := .cancelled, checks := k3 + 1,
                tempCreated := true, tempRemoved := true, keyFiles := pk.2,
                manifest := some (pk.1, locals), resolved := some (pl, murl),
                files := files2, hw := st.hw, failedSegs := st.failed, retryLog := log }
            else if env.remuxOk then
              { baseResult with
                outcome := .success, checks := k3 + 1,
                tempCreated := true, tempRemoved := true, keyFiles := pk.2,
                manifest := some (pk.1, locals), resolved := some (pl, murl),
                files := files2, hw := st.hw, failedSegs := st.failed, retryLog := log }
            else
              { baseResult with
                outcome := .failedGeneric, checks := k3 + 1,
                tempCreated := true, tempRemoved := true, keyFiles := pk.2,
                manifest := some (pk.1, locals), resolved := some (pl, murl),
                files := files2, hw := st.hw, failedSegs := st.failed, retryLog := log }

/-! ### Concrete environments used by counterexamples and witnesses -/

/-- Cancellation signalled from the start: every is_set() call reads true. -/
def c2env : Env :=
  { net := fun _ => none, keyFetch := fun _ => none, fetchSeg := fun _ _ => .raise,
    cancel := fun _ => true, pick := fun _ => 0, remuxOk := true }

/-- A playlist with zero segments and no variants. -/
def c6envNoSeg : Env :=
  { net := fun _ => some { segments := [], keys := [], variants := [] },
    keyFetch := fun _ => none, fetchSeg := fun _ _ => .content 5,
    cancel := fun _ => false, pick := fun _ => 0, remuxOk := true }

/-- One segment that downloads fine, but the remux process fails. -/
def c6envRemux : Env :=
  { net := fun _ => some { segments := [{ uri := "s0.ts" }], keys := [], variants := [] },
    keyFetch := fun _ => none, fetchSeg := fun _ _ => .content 5,
    cancel := fun _ => false, pick := fun _ => 0, remuxOk := false }

/-- One segment whose every fetch returns empty content, remux succeeding. -/
def c6envExhaust : Env :=
  { net := fun _ => some { segments := [{ uri := "s0.ts" }], keys := [], variants := [] },
    keyFetch := fun _ => none, fetchSeg := fun _ _ => .content 0,
    cancel := fun _ => false, pick := fun _ => 0, remuxOk := true }

/-- One segment whose every fetch returns empty content, remux succeeding. -/
def c7env : Env :=
  { net := fun _ => some { segments := [{ uri := "s0.ts" }], keys := [], variants := [] },
    keyFetch := fun _ => none, fetchSeg := fun _ _ => .content 0,
    cancel := fun _ => false, pick := fun _ => 0, remuxOk := true }

/-- Three segments, two workers, all fetches succeeding. -/
def c9env : Env :=
  { net := fun _ => some { segments := [], keys := [], variants := [] },
    keyFetch := fun _ => none, fetchSeg := fun _ _ => .content 4,
    cancel := fun _ => false, pick := fun _ => 0, remuxOk := true }

/-- The final scheduler state of a five-segment run over c9env with two workers. -/
def c9doneSt : SchedSt :=
  { k := 17, pending := [], nextIdx := 5, files := [(4, 4), (3, 4), (2, 4), (1, 4), (0, 4)],
    failed := [], completed := 5, totalBytes := 20, submitted := 5, hw := 2 }

/-- A playlist declaring an encryption key whose fetch fails. -/
def c10env : Env :=
  { net := fun _ => some { segments := [{ uri := "s0.ts" }],
                           keys := [some { uri := "k.bin" }], variants := [] },
    keyFetch := fun _ => none, fetchSeg := fun _ _ => .content 7,
    cancel := fun _ => false, pick := fun _ => 0, remuxOk := true }

/-- Like c10env but with the key fetch succeeding. -/
def c10envOk : Env :=
  { net := fun _ => some { segments := [{ uri := "s0.ts" }],
                           keys := [some { uri := "k.bin" }], variants := [] },
    keyFetch := fun _ => some 16, fetchSeg := fun _ _ => .content 7,
    cancel := fun _ => false, pick := fun _ => 0, remuxOk := true }

/-! ### Auxiliary relations and claim-statement vocabulary -/

/-- The non-strict complement of the strict key order. -/
def nltRel {α : Type} (lt : α → α → Bool) : α → α → Prop := fun x y => lt y x = false

/-- Non-strict lexicographic order on the (rank, original index) keys. -/
def pickKeyLE (fieldName : String) (fs : Option FieldSources) (a b : Nat × CrawlResult) : Prop :=
  rank_for fieldName a.2.source fs < rank_for fieldName b.2.source fs ∨
    (rank_for fieldName a.2.source fs = rank_for fieldName b.2.source fs ∧ a.1 ≤ b.1)

/-- Host component of a URL as claim C8 reads it: the part after the scheme
separator, up to the next slash, colon or question mark.  Modelled from the spec:
used only to state C8 as written (the code itself never parses the host). -/
def hostOf (u : String) : String :=
  let cs := u.data
  let rest :=
    if listStarts "http://".data cs then cs.drop 7
    else if listStarts "https://".data cs then cs.drop 8
    else cs
  String.mk (rest.takeWhile (fun c => !(c == '/') && !(c == ':') && !(c == '?')))

/-! ### Generic lemmas about the stable sort, find? and the dict operations -/

theorem mem_insertAfterTies {α : Type} (lt : α → α → Bool) (a : α) (l : List α) (x : α) :
    x ∈ insertAfterTies lt a l ↔ x = a ∨ x ∈ l := by
  induction l with
  | nil => simp [insertAfterTies]
  | cons b t ih =>
    simp only [insertAfterTies]
    split <;> simp [List.mem_cons, ih] <;> tauto

theorem mem_sortAux {α : Type} (lt : α → α → Bool) (l : List α) :
    ∀ (acc : List α) (x : α),
      (x ∈ l.foldl (fun acc a => insertAfterTies lt a acc) acc ↔ x ∈ acc ∨ x ∈ l) := by
  induction l with
  | nil => simp
  | cons a t ih =>
    intro acc x
    simp only [List.foldl_cons]
    rw [ih]
    simp [mem_insertAfterTies]
    tauto

theorem mem_stableSortBy {α : Type} (lt : α → α → Bool) (l : List α) (x : α) :
    x ∈ stableSortBy lt l ↔ x ∈ l := by
  unfold stableSortBy
  rw [mem_sortAux]
  simp

theorem pairwise_insertAfterTies {α : Type} (lt : α → α → Bool)
    (asym : ∀ x y, lt x y = true → lt y x = false)
    (htrans : ∀ x y z, lt x y = true → lt y z = true → lt x z = true)
    (a : α) (l : List α) (h : l.Pairwise (nltRel lt)) :
    (insertAfterTies lt a l).Pairwise (nltRel lt) := by
  induction l with
  | nil => simp [insertAfterTies, nltRel]
  | cons b t ih =>
    rcases List.pairwise_cons.mp h with ⟨hb, ht⟩
    simp only [insertAfterTies]
    split
    case isTrue hab =>
      refine List.pairwise_cons.mpr ⟨?_, h⟩
      intro y hy
      rcases List.mem_cons.mp hy with rfl | hyt
      · exact asym a y hab
      · by_contra hya
        have hya2 : lt y a = true := by
          cases hcase : lt y a with
          | true => rfl
          | false => exact absurd hcase hya
        have h3 : lt y b = true := htrans y a b hya2 hab
        have h4 := hb y hyt
        rw [nltRel] at h4
        rw [h4] at h3
        exact Bool.false_ne_true h3
    case isFalse hab =>
      refine List.pairwise_cons.mpr ⟨?_, ih ht⟩
      intro y hy
      rcases (mem_insertAfterTies lt a t y).mp hy with rfl | hyt
      · show lt y b = false
        cases hcase : lt y b with
        | true => exact absurd hcase hab
        | false => rfl
      · exact hb y hyt

theorem pairwise_sortAux {α : Type} (lt : α → α → Bool)
    (asym : ∀ x y, lt x y = true → lt y x = false)
    (htrans : ∀ x y z, lt x y = true → lt y z = true → lt x z = true)
    (l : List α) :
    ∀ (acc : List α), acc.Pairwise (nltRel lt) →
      (l.foldl (fun acc a => insertAfterTies lt a acc) acc).Pairwise (nltRel lt) := by
  induction l with
  | nil => intro acc h; simpa using h
  | cons a t ih =>
    intro acc h
    simp only [List.foldl_cons]
    exact ih _ (pairwise_insertAfterTies lt asym htrans a acc h)

theorem pairwise_stableSortBy {α : Type} (lt : α → α → Bool)
    (asym : ∀ x y, lt x y = true → lt y x = false)
    (htrans : ∀ x y z, lt x y = true → lt y z = true → lt x z = true)
    (l : List α) :
    (stableSortBy lt l).Pairwise (nltRel lt) :=
  pairwise_sortAux lt asym htrans l [] (by simp)

theorem head_stableSortBy_min {α : Type} (lt : α → α → Bool)
    (asym : ∀ x y, lt x y = true → lt y x = false)
    (htrans : ∀ x y z, lt x y = true → lt y z = true → lt x z = true)
    (l : List α) (x : α) (rest : List α)
    (h : stableSortBy lt l = x :: rest) :
    x ∈ l ∧ ∀ y ∈ l, lt y x = false := by
  have hp := pairwise_stableSortBy lt asym htrans l
  rw [h] at hp
  have hmem : x ∈ stableSortBy lt l := by rw [h]; exact List.mem_cons_self x rest
  refine ⟨(mem_stableSortBy lt l x).mp hmem, ?_⟩
  intro y hy
  have hy2 : y ∈ x :: rest := by rw [← h]; exact (mem_stableSortBy lt l y).mpr hy
  rcases List.mem_cons.mp hy2 with rfl | hyr
  · cases hcase : lt y y with
    | true =>
      have h2 := asym y y hcase
      rw [hcase] at h2
      exact h2
    | false => rfl
  · exact (List.pairwise_cons.mp hp).1 y hyr

theorem find?_min_of_pairwise {α : Type} {R : α → α → Prop} {p : α → Bool} {x : α} :
    ∀ {l : List α}, l.Pairwise R → l.find? p = some x →
      p x = true ∧ ∀ y ∈ l, p y = true → R x y ∨ x = y := by
  intro l
  induction l with
  | nil => intro _ hf; simp at hf
  | cons b t ih =>
    intro hp hf
    rcases List.pairwise_cons.mp hp with ⟨hb, ht⟩
    by_cases hpb : p b = true
    · rw [List.find?_cons_of_pos _ hpb] at hf
      cases hf
      refine ⟨hpb, ?_⟩
      intro y hy _
      rcases List.mem_cons.mp hy with rfl | hyt
      · right; rfl
      · left; exact hb y hyt
    · rw [List.find?_cons_of_neg _ (by simpa using hpb)] at hf
      obtain ⟨hpx, hall⟩ := ih ht hf
      refine ⟨hpx, ?_⟩
      intro y hy hpy
      rcases List.mem_cons.mp hy with rfl | hyt
      · exact absurd hpy hpb
      · exact hall y hyt hpy

theorem dget_nil (k2 : String) : dget [] k2 = none := rfl

theorem dget_cons (a : String) (w : PyVal) (t : List (String × PyVal)) (k2 : String) :
    dget ((a, w) :: t) k2 = if a = k2 then some w else dget t k2 := by
  by_cases h : a = k2
  · have hb : (a == k2) = true := by simpa using h
    simp [dget, List.find?, hb, h]
  · have hb : (a == k2) = false := by simpa using h
    simp [dget, List.find?, hb, h]

theorem dmem_cons (a : String) (w : PyVal) (t : List (String × PyVal)) (k2 : String) :
    dmem ((a, w) :: t) k2 = (a = k2 || dmem t k2) := by
  unfold dmem
  rw [dget_cons]
  by_cases h : a = k2 <;> simp [h]

theorem dget_map_overwrite (d : List (String × PyVal)) (k k2 : String) (v : PyVal) :
    dget (d.map (fun kv => if kv.1 == k then (k, v) else kv)) k2 =
      if k2 = k then (if dmem d k then some v else none) else dget d k2 := by
  induction d with
  | nil => simp [dget, dmem]
  | cons kv t ih =>
    obtain ⟨a, w⟩ := kv
    by_cases h1 : a = k
    · have hb : (a == k) = true := by simpa using h1
      simp only [List.map_cons, hb, if_true]
      rw [dget_cons, dmem_cons, dget_cons]
      by_cases h2 : k2 = k
      · simp [h2, h1]
      · have h3 : ¬ (k = k2) := fun he => h2 he.symm
        have h4 : ¬ (a = k2) := by rw [h1]; exact h3
        simp only [h3, if_false, h4, if_false]
        rw [ih]
        simp [h2]
    · have hb : (a == k) = false := by simpa using h1
      simp only [List.map_cons, hb, if_false]
      rw [dget_cons, dmem_cons, dget_cons]
      by_cases h2 : a = k2
      · have h3 : ¬ (k2 = k) := by rw [← h2]; exact fun he => h1 he
        simp [h2, h3, h1]
      · simp only [h2, if_false]
        rw [ih]
        simp [h1, h2]

theorem dget_append_single (d : List (String × PyVal)) (k k2 : String) (v : PyVal) :
    dget (d ++ [(k, v)]) k2 =
      match dget d k2 with
      | some w => some w
      | none => if k2 = k then some v else none := by
  induction d with
  | nil =>
    rw [List.nil_append, dget_nil]
    rw [dget_cons]
    by_cases h : k = k2 <;> simp [h, eq_comm, dget_nil]
  | cons kv t ih =>
    obtain ⟨a, w⟩ := kv
    rw [List.cons_append, dget_cons, dget_cons]
    by_cases h : a = k2
    · simp [h]
    · simp only [h, if_false]
      exact ih

theorem dget_dset (d : List (String × PyVal)) (k k2 : String) (v : PyVal) :
    dget (dset d k v) k2 = if k2 = k then some v else dget d k2 := by
  unfold dset
  by_cases hd : dmem d k
  · rw [if_pos hd, dget_map_overwrite]
    by_cases h : k2 = k <;> simp [h, hd]
  · rw [if_neg hd, dget_append_single]
    by_cases h : k2 = k
    · subst h
      have hg : dget d k2 = none := by
        unfold dmem at hd
        cases hg : dget d k2 with
        | none => rfl
        | some w => rw [hg] at hd; simp at hd
      simp [hg]
    · cases hg : dget d k2 <;> simp [h, hg]

theorem dmem_dset (d : List (String × PyVal)) (k k2 : String) (v : PyVal) :
    dmem (dset d k v) k2 = (k2 = k || dmem d k2) := by
  unfold dmem
  rw [dget_dset]
  by_cases h : k2 = k <;> simp [h]

theorem dget_fallbackInner (kvs : List (String × PyVal)) :
    ∀ (d : List (String × PyVal)) (k : String), dmem d k = true →
      dget (fallbackInner d kvs) k = dget d k ∧ dmem (fallbackInner d kvs) k = true := by
  induction kvs with
  | nil => intro d k h; exact ⟨rfl, h⟩
  | cons kv t ih =>
    intro d k h
    have hstep : fallbackInner d (kv :: t) =
        fallbackInner
          (if dmem d kv.1 then d else if kv.2.isEmptyVal then d else dset d kv.1 kv.2) t := by
      simp only [fallbackInner, List.foldl_cons]
    rw [hstep]
    by_cases h1 : dmem d kv.1
    · simp only [h1, if_true]
      exact ih d k h
    · by_cases h2 : kv.2.isEmptyVal
      · simp only [h1, h2, Bool.false_eq_true, if_false, if_true]
        exact ih d k h
      · simp only [h1, h2, Bool.false_eq_true, if_false]
        have hne : ¬ (k = kv.1) := by
          intro he
          rw [he] at h
          exact h1 h
        have hg : dget (dset d kv.1 kv.2) k = dget d k := by
          rw [dget_dset, if_neg hne]
        have hm : dmem (dset d kv.1 kv.2) k = true := by
          rw [dmem_dset]
          simp [h]
        obtain ⟨ha, hb⟩ := ih (dset d kv.1 kv.2) k hm
        exact ⟨ha.trans hg, hb⟩

theorem dget_fallbackPass (results : List CrawlResult) :
    ∀ (d : List (String × PyVal)) (k : String), dmem d k = true →
      dget (fallbackPass d results) k = dget d k := by
  induction results with
  | nil => intro d k _; rfl
  | cons r t ih =>
    intro d k h
    have hstep : fallbackPass d (r :: t) = fallbackPass (fallbackInner d r.data) t := by
      simp only [fallbackPass, List.foldl_cons]
    rw [hstep]
    obtain ⟨ha, hb⟩ := dget_fallbackInner r.data d k h
    exact (ih _ k hb).trans ha

/-! ### Characterisation of priority resolution -/

theorem pickLT_asym (fieldName : String) (fs : Option FieldSources) :
    ∀ a b, pickLT fieldName fs a b = true → pickLT fieldName fs b a = false := by
  intro a b h
  cases hc : pickLT fieldName fs b a with
  | false => rfl
  | true =>
    exfalso
    simp only [pickLT, Bool.or_eq_true, Bool.and_eq_true, decide_eq_true_eq, beq_iff_eq]
      at h hc
    omega

theorem pickLT_trans (fieldName : String) (fs : Option FieldSources) :
    ∀ a b c, pickLT fieldName fs a b = true → pickLT fieldName fs b c = true →
      pickLT fieldName fs a c = true := by
  intro a b c h1 h2
  simp only [pickLT, Bool.or_eq_true, Bool.and_eq_true, decide_eq_true_eq, beq_iff_eq]
    at h1 h2 ⊢
  omega

theorem pickLT_false_iff (fieldName : String) (fs : Option FieldSources)
    (a b : Nat × CrawlResult) :
    (pickLT fieldName fs b a = false) ↔ pickKeyLE fieldName fs a b := by
  rw [← Bool.not_eq_true]
  simp only [pickLT, pickKeyLE, Bool.or_eq_true, Bool.and_eq_true, decide_eq_true_eq,
    beq_iff_eq]
  omega

/-- Core characterisation: when the field is not disabled and some candidate has a
non-empty extracted value, priority resolution returns the value of a candidate
that is minimal in the (rank, original index) order among all non-empty candidates. -/
theorem pick_by_priority_spec (results : List CrawlResult) (fieldName : String)
    (getter : CrawlResult → PyVal) (fs : Option FieldSources)
    (hnd : field_disabled fieldName fs = false)
    (hex : ∃ r ∈ results, (getter r).isEmptyVal = false) :
    ∃ i r, results[i]? = some r ∧ (getter r).isEmptyVal = false ∧
      pick_by_priority results fieldName getter fs = getter r ∧
      ∀ j rr, results[j]? = some rr → (getter rr).isEmptyVal = false →
        pickKeyLE fieldName fs (i, r) (j, rr) := by
  have hpair := pairwise_stableSortBy (pickLT fieldName fs)
    (pickLT_asym fieldName fs) (pickLT_trans fieldName fs) results.enum
  cases hfind : (stableSortBy (pickLT fieldName fs) results.enum).find?
      (fun p => !(getter p.2).isEmptyVal) with
  | none =>
    exfalso
    obtain ⟨r, hr, hne⟩ := hex
    obtain ⟨i, hi⟩ := List.mem_iff_getElem?.mp hr
    have henum : (i, r) ∈ results.enum := List.mk_mem_enum_iff_getElem?.mpr hi
    have hsort : (i, r) ∈ stableSortBy (pickLT fieldName fs) results.enum :=
      (mem_stableSortBy _ _ _).mpr henum
    have := List.find?_eq_none.mp hfind (i, r) hsort
    simp [hne] at this
  | some p =>
    obtain ⟨hpred, hall⟩ := find?_min_of_pairwise hpair hfind
    have hps : p ∈ stableSortBy (pickLT fieldName fs) results.enum :=
      List.mem_of_find?_eq_some hfind
    have hpe : (p.1, p.2) ∈ results.enum := by
      have : p ∈ results.enum := (mem_stableSortBy _ _ _).mp hps
      simpa using this
    have hget : results[p.1]? = some p.2 := List.mk_mem_enum_iff_getElem?.mp hpe
    have hne : (getter p.2).isEmptyVal = false := by
      simpa using hpred
    refine ⟨p.1, p.2, hget, hne, ?_, ?_⟩
    · unfold pick_by_priority
      rw [hnd]
      simp only [Bool.false_eq_true, if_false]
      rw [hfind]
    · intro j rr hj hne2
      have henum2 : (j, rr) ∈ results.enum := List.mk_mem_enum_iff_getElem?.mpr hj
      have hsort2 : (j, rr) ∈ stableSortBy (pickLT fieldName fs) results.enum :=
        (mem_stableSortBy _ _ _).mpr henum2
      have hpred2 : (fun p => !(getter p.2).isEmptyVal) (j, rr) = true := by
        simpa using hne2
      rcases hall (j, rr) hsort2 hpred2 with hR | hEq
      · have : pickLT fieldName fs (j, rr) p = false := hR
        have h2 := (pickLT_false_iff fieldName fs p (j, rr)).mp this
        simpa using h2
      · rw [← hEq]
        right
        exact ⟨rfl, Nat.le_refl _⟩

/-- Dual characterisation: if every candidate value is empty (or the field is
disabled) the resolver returns Python None. -/
theorem pick_by_priority_of_all_empty (results : List CrawlResult) (fieldName : String)
    (getter : CrawlResult → PyVal) (fs : Option FieldSources)
    (h : ∀ r ∈ results, (getter r).isEmptyVal = true) :
    pick_by_priority results fieldName getter fs = .pnone := by
  unfold pick_by_priority
  by_cases hd : field_disabled fieldName fs
  · rw [if_pos hd]
  · rw [if_neg hd]
    cases hfind : (stableSortBy (pickLT fieldName fs) results.enum).find?
        (fun p => !(getter p.2).isEmptyVal) with
    | none => rfl
    | some p =>
      exfalso
      have hpred := List.find?_some hfind
      have hps : p ∈ stableSortBy (pickLT fieldName fs) results.enum :=
        List.mem_of_find?_eq_some hfind
      have hpe : (p.1, p.2) ∈ results.enum := by
        have : p ∈ results.enum := (mem_stableSortBy _ _ _).mp hps
        simpa using this
      have hget : results[p.1]? = some p.2 := List.mk_mem_enum_iff_getElem?.mp hpe
      have hmem : p.2 ∈ results := by
        rw [List.mem_iff_getElem?]
        exact ⟨p.1, hget⟩
      have := h p.2 hmem
      simp [this] at hpred

/-! ### Key-preservation lemmas for the merge pipeline -/

theorem dget_loopStep_ne (results : List CrawlResult) (fs : Option FieldSources)
    (d : List (String × PyVal)) (k k2 : String) (h : ¬(k = k2)) :
    dget (loopStep results fs d k2) k = dget d k := by
  unfold loopStep
  by_cases hd : field_disabled k2 fs
  · rw [if_pos hd]
  · rw [if_neg hd]
    by_cases hv : (pick_by_priority results k2 (keyGetter k2) fs).isEmptyVal
    · simp [hv]
    · simp only [hv, Bool.not_false, if_true, Bool.not_eq_true]
      rw [dget_dset]
      simp [h]

theorem dget_loopFold_ne (results : List CrawlResult) (fs : Option FieldSources)
    (ks : List String) :
    ∀ (d : List (String × PyVal)) (k : String), (∀ k2 ∈ ks, ¬(k = k2)) →
      dget (ks.foldl (loopStep results fs) d) k = dget d k := by
  induction ks with
  | nil => intro d k _; rfl
  | cons k2 t ih =>
    intro d k h
    have hk2 : ¬(k = k2) := h k2 (List.mem_cons_self k2 t)
    have ht : ∀ k3 ∈ t, ¬(k = k3) := fun k3 hk3 => h k3 (List.mem_cons_of_mem k2 hk3)
    simp only [List.foldl_cons]
    rw [ih _ k ht]
    exact dget_loopStep_ne results fs d k k2 hk2

theorem dget_loopBlock_ne (results : List CrawlResult) (fs : Option FieldSources)
    (d : List (String × PyVal)) (k : String) (h : ∀ k2 ∈ loopKeys, ¬(k = k2)) :
    dget (loopBlock results fs d) k = dget d k :=
  dget_loopFold_ne results fs loopKeys d k h

theorem dget_trailerBlock_ne (results : List CrawlResult) (fs : Option FieldSources)
    (d : List (String × PyVal)) (k : String) (h : ¬(k = "trailer_url")) :
    dget (trailerBlock results fs d) k = dget d k := by
  unfold trailerBlock
  by_cases hd : field_disabled "trailer_url" fs
  · rw [if_pos hd]
  · rw [if_neg hd]
    cases pick_by_priority results "trailer_url" trailerGetter fs with
    | pstr s => rw [dget_dset]; simp [h]
    | pnone => rfl
    | plist xs => rfl

theorem dget_artworkBlock_ne (results : List CrawlResult) (fs : Option FieldSources)
    (d : List (String × PyVal)) (k : String) (h1 : ¬(k = "poster_url"))
    (h2 : ¬(k = "fanart_url")) (h3 : ¬(k = "preview_urls")) :
    dget (artworkBlock results fs d) k = dget d k := by
  unfold artworkBlock
  simp only
  have step1 :
      dget (if field_disabled "poster_url" fs then d
        else
          match pick_by_priority results "poster_url" posterGetter fs with
          | .pstr s => dset d "poster_url" (.pstr s)
          | _ => d) k = dget d k := by
    by_cases hd : field_disabled "poster_url" fs
    · rw [if_pos hd]
    · rw [if_neg hd]
      cases pick_by_priority results "poster_url" posterGetter fs with
      | pstr s => rw [dget_dset]; simp [h1]
      | pnone => rfl
      | plist xs => rfl
  set d1 := (if field_disabled "poster_url" fs then d
    else
      match pick_by_priority results "poster_url" posterGetter fs with
      | .pstr s => dset d "poster_url" (.pstr s)
      | _ => d) with hd1
  have step2 :
      dget (if field_disabled "fanart_url" fs then d1
        else
          match pick_by_priority results "fanart_url" fanartGetter fs with
          | .pstr s => dset d1 "fanart_url" (.pstr s)
          | _ => d1) k = dget d1 k := by
    by_cases hd : field_disabled "fanart_url" fs
    · rw [if_pos hd]
    · rw [if_neg hd]
      cases pick_by_priority results "fanart_url" fanartGetter fs with
      | pstr s => rw [dget_dset]; simp [h2]
      | pnone => rfl
      | plist xs => rfl
  set d2 := (if field_disabled "fanart_url" fs then d1
    else
      match pick_by_priority results "fanart_url" fanartGetter fs with
      | .pstr s => dset d1 "fanart_url" (.pstr s)
      | _ => d1) with hd2
  have step3 :
      dget (if field_disabled "preview_urls" fs then d2
        else
          match pick_by_priority results "preview_urls" (keyGetter "preview_urls") fs with
          | .plist xs => if !xs.isEmpty then dset d2 "preview_urls" (.plist xs) else d2
          | _ => d2) k = dget d2 k := by
    by_cases hd : field_disabled "preview_urls" fs
    · rw [if_pos hd]
    · rw [if_neg hd]
      cases pick_by_priority results "preview_urls" (keyGetter "preview_urls") fs with
      | pstr s => rfl
      | pnone => rfl
      | plist xs =>
        by_cases hx : xs.isEmpty
        · simp [hx]
        · simp only [hx, Bool.not_false, if_true]
          rw [dget_dset]
          simp [h3]
  rw [step3, step2, step1]

/-- If the plot block populated the plot key, all later merge phases keep its value. -/
theorem dget_merge_data_plot (results : List CrawlResult) (fs : Option FieldSources)
    (h : dmem (plotBlock results fs []) "plot" = true) :
    dget (merge_results results fs).data "plot" = dget (plotBlock results fs []) "plot" := by
  unfold merge_results
  simp only
  have hloop : dget (loopBlock results fs (plotBlock results fs [])) "plot" =
      dget (plotBlock results fs []) "plot" := by
    apply dget_loopBlock_ne
    intro k2 hk2 he
    rw [← he] at hk2
    simp [loopKeys] at hk2
  have htr : dget (trailerBlock results fs (loopBlock results fs (plotBlock results fs [])))
      "plot" = dget (loopBlock results fs (plotBlock results fs [])) "plot" := by
    apply dget_trailerBlock_ne
    decide
  have hart : dget (artworkBlock results fs
      (trailerBlock results fs (loopBlock results fs (plotBlock results fs []))))
      "plot" = dget (trailerBlock results fs (loopBlock results fs (plotBlock results fs [])))
      "plot" := by
    apply dget_artworkBlock_ne <;> decide
  have hmemart : dmem (artworkBlock results fs
      (trailerBlock results fs (loopBlock results fs (plotBlock results fs []))))
      "plot" = true := by
    unfold dmem
    rw [hart, htr, hloop]
    unfold dmem at h
    exact h
  rw [dget_fallbackPass _ _ _ hmemart, hart, htr, hloop]

/-! ### Claim theorems -/

/-- C3: the claim says a field mapped to the empty list in fieldSources is never
populated.  Evaluating merge_results at the failing input shows the code populating
the disabled actors field anyway: every named phase honours the disabling, but the
final fallback pass copies any non-empty value whose key is absent from the merged
record, with no disabled-field check, so the single input result's actors value ends
up in the merged record. -/
theorem c3_code_evaluation :
    dget (merge_results
        [{ source := "javtrailers", data := [("actors", .plist [.pstr "Alice"])] }]
        (some [("actors", [])])).data "actors" = some (.plist [.pstr "Alice"]) := rfl

/-- C8 counterexample: the claim is false as stated.  First input: a URL whose host
is evil.example (not pics.dmm.co.jp) still yields derived variants, because the code
only tests substring containment of pics.dmm.co.jp/ anywhere in the URL.  Second
input: an uppercase PS.JPG suffix is matched case-insensitively but replaced by
lowercase pl.jpg, so deriving from the derived fanart yields a lowercase poster URL
that differs from the original — the round trip fails. -/
theorem c8_counterexample :
    (hostOf "http://evil.example/pics.dmm.co.jp/aps.jpg" ≠ "pics.dmm.co.jp" ∧
      derive_dmm_artwork (some "http://evil.example/pics.dmm.co.jp/aps.jpg") ≠
        (none, none)) ∧
    (derive_dmm_artwork (some "https://pics.dmm.co.jp/aPS.JPG") =
        (some "https://pics.dmm.co.jp/aPS.JPG", some "https://pics.dmm.co.jp/apl.jpg") ∧
      derive_dmm_artwork (some "https://pics.dmm.co.jp/apl.jpg") =
        (some "https://pics.dmm.co.jp/aps.jpg", some "https://pics.dmm.co.jp/apl.jpg") ∧
      ("https://pics.dmm.co.jp/aps.jpg" : String) ≠ "https://pics.dmm.co.jp/aPS.JPG") := by
  refine ⟨⟨by decide, by decide⟩, by decide, by decide, by decide⟩

/-- C8 (amended): the trigger is case-insensitive substring containment of
pics.dmm.co.jp/ anywhere in the stripped URL (not a host check); a case-insensitive
occurrence of ps.jpg immediately before end-of-string or a question mark makes the
URL the poster and the fanart is the URL with the first such occurrence replaced by
lowercase pl.jpg; symmetrically for pl.jpg (tested only when no ps.jpg occurrence
exists); URLs without the substring or without either suffix occurrence yield no
variant; and the round trip holds on the standard single-occurrence lowercase DMM
pattern, as witnessed on the spec's own example. -/
theorem c8_amended (u : String) :
    (¬(pyStrip u = "") →
      hasSub "pics.dmm.co.jp/".data ((pyStrip u).data.map Char.toLower) = true →
      sufSearch 's' (pyStrip u).data = true →
      derive_dmm_artwork (some u) =
        (some (pyStrip u), some (String.mk (sufReplace 's' 'l' (pyStrip u).data)))) ∧
    (¬(pyStrip u = "") →
      hasSub "pics.dmm.co.jp/".data ((pyStrip u).data.map Char.toLower) = true →
      sufSearch 's' (pyStrip u).data = false → sufSearch 'l' (pyStrip u).data = true →
      derive_dmm_artwork (some u) =
        (some (String.mk (sufReplace 'l' 's' (pyStrip u).data)), some (pyStrip u))) ∧
    ((pyStrip u = "" ∨
      hasSub "pics.dmm.co.jp/".data ((pyStrip u).data.map Char.toLower) = false ∨
      (sufSearch 's' (pyStrip u).data = false ∧ sufSearch 'l' (pyStrip u).data = false)) →
      derive_dmm_artwork (some u) = (none, none)) ∧
    (derive_dmm_artwork
        (some "https://pics.dmm.co.jp/digital/video/abc00123/abc00123ps.jpg") =
      (some "https://pics.dmm.co.jp/digital/video/abc00123/abc00123ps.jpg",
       some "https://pics.dmm.co.jp/digital/video/abc00123/abc00123pl.jpg") ∧
     derive_dmm_artwork
        (some "https://pics.dmm.co.jp/digital/video/abc00123/abc00123pl.jpg") =
      (some "https://pics.dmm.co.jp/digital/video/abc00123/abc00123ps.jpg",
       some "https://pics.dmm.co.jp/digital/video/abc00123/abc00123pl.jpg")) := by
  have hgd : (some u).getD "" = u := rfl
  refine ⟨?_, ?_, ?_, by decide, by decide⟩
  · intro h1 h2 h3
    have hb : (pyStrip u == "") = false := by simpa using h1
    unfold derive_dmm_artwork
    rw [hgd]
    simp only [hb, Bool.false_eq_true, if_false, h2, Bool.not_true, h3, if_true]
  · intro h1 h2 h3 h4
    have hb : (pyStrip u == "") = false := by simpa using h1
    unfold derive_dmm_artwork
    rw [hgd]
    simp only [hb, Bool.false_eq_true, if_false, h2, Bool.not_true, h3, h4, if_true]
  · intro h
    unfold derive_dmm_artwork
    rw [hgd]
    rcases h with h1 | h1 | ⟨h1, h2⟩
    · have hb : (pyStrip u == "") = true := by simpa using h1
      simp only [hb, if_true]
    · by_cases he : pyStrip u = ""
      · have hb : (pyStrip u == "") = true := by simpa using he
        simp only [hb, if_true]
      · have hb : (pyStrip u == "") = false := by simpa using he
        simp only [hb, Bool.false_eq_true, if_false, h1, Bool.not_false, if_true]
    · by_cases he : pyStrip u = ""
      · have hb : (pyStrip u == "") = true := by simpa using he
        simp only [hb, if_true]
      · have hb : (pyStrip u == "") = false := by simpa using he
        by_cases hh : hasSub "pics.dmm.co.jp/".data ((pyStrip u).data.map Char.toLower)
        · simp only [hb, Bool.false_eq_true, if_false, hh, Bool.not_true, h1, h2, if_false]
        · have hh2 : hasSub "pics.dmm.co.jp/".data ((pyStrip u).data.map Char.toLower)
              = false := by simpa using hh
          simp only [hb, Bool.false_eq_true, if_false, hh2, Bool.not_false, if_true]

/-- C8 amended witness: the first clause applied at a concrete poster URL. -/
theorem c8_amended_witness :
    derive_dmm_artwork (some "https://pics.dmm.co.jp/xps.jpg") =
      (some "https://pics.dmm.co.jp/xps.jpg", some "https://pics.dmm.co.jp/xpl.jpg") := by
  have h := (c8_amended "https://pics.dmm.co.jp/xps.jpg").1 (by decide) (by decide) (by decide)
  rw [h]
  decide

/-- C4: plot resolution with quality fallback (for a non-disabled plot field).
If the priority-selected candidate is a non-empty string that does not look bad, its
stripped value becomes the merged plot; if the candidate is an empty-or-bad string,
or there is no candidate, the merger scans all results in input order and uses the
first plot that does not look bad; and if no result has a non-bad plot while the
priority pick was a non-empty string, the bad pick is kept in the merged record. -/
theorem c4_plot_quality_fallback (results : List CrawlResult) (fs : Option FieldSources)
    (hnd : field_disabled "plot" fs = false) :
    (∀ s, pick_by_priority results "plot" plotGetter fs = .pstr s →
        ¬(pyStrip s = "") → looks_bad_plot s = false →
        dget (merge_results results fs).data "plot" = some (.pstr (pyStrip s))) ∧
    (∀ s v, pick_by_priority results "plot" plotGetter fs = .pstr s →
        (pyStrip s = "" ∨ looks_bad_plot s = true) →
        results.findSome? goodPlotOf = some v →
        dget (merge_results results fs).data "plot" = some (.pstr v)) ∧
    (∀ v, pick_by_priority results "plot" plotGetter fs = .pnone →
        results.findSome? goodPlotOf = some v →
        dget (merge_results results fs).data "plot" = some (.pstr v)) ∧
    (∀ s, pick_by_priority results "plot" plotGetter fs = .pstr s →
        ¬(pyStrip s = "") → results.findSome? goodPlotOf = none →
        dget (merge_results results fs).data "plot" = some (.pstr (pyStrip s))) := by
  have hif : ¬(field_disabled "plot" fs = true) := by simp [hnd]
  refine ⟨?_, ?_, ?_, ?_⟩
  · intro s hpick hs1 hbad
    have hb : (pyStrip s == "") = false := by simpa using hs1
    have hcond : (!(pyStrip s == "") && !looks_bad_plot s) = true := by
      simp [hb, hbad]
    have hd1 : dget (plotBlock results fs []) "plot" = some (.pstr (pyStrip s)) := by
      unfold plotBlock
      rw [if_neg hif]
      simp only [hpick, hcond, if_true]
      rw [dget_dset]
      simp
    have hm : dmem (plotBlock results fs []) "plot" = true := by
      unfold dmem
      rw [hd1]
      rfl
    rw [dget_merge_data_plot results fs hm, hd1]
  · intro s v hpick hor hfind
    have hcond : (!(pyStrip s == "") && !looks_bad_plot s) = false := by
      rcases hor with h | h
      · simp [h]
      · simp [h]
    have hd1 : dget (plotBlock results fs []) "plot" = some (.pstr v) := by
      unfold plotBlock
      rw [if_neg hif]
      simp only [hpick, hcond, Bool.false_eq_true, if_false, hfind]
      rw [dget_dset]
      simp
    have hm : dmem (plotBlock results fs []) "plot" = true := by
      unfold dmem
      rw [hd1]
      rfl
    rw [dget_merge_data_plot results fs hm, hd1]
  · intro v hpick hfind
    have hd1 : dget (plotBlock results fs []) "plot" = some (.pstr v) := by
      unfold plotBlock
      rw [if_neg hif]
      simp only [hpick, hfind]
      rw [dget_dset]
      simp
    have hm : dmem (plotBlock results fs []) "plot" = true := by
      unfold dmem
      rw [hd1]
      rfl
    rw [dget_merge_data_plot results fs hm, hd1]
  · intro s hpick hs1 hfind
    have hb : (pyStrip s == "") = false := by simpa using hs1
    by_cases hbad : looks_bad_plot s = true
    · have hcond : (!(pyStrip s == "") && !looks_bad_plot s) = false := by simp [hbad]
      have hd1 : dget (plotBlock results fs []) "plot" = some (.pstr (pyStrip s)) := by
        unfold plotBlock
        rw [if_neg hif]
        simp only [hpick, hcond, Bool.false_eq_true, if_false, hfind]
        simp only [hb, Bool.not_false, if_true]
        rw [dget_dset]
        simp
      have hm : dmem (plotBlock results fs []) "plot" = true := by
        unfold dmem
        rw [hd1]
        rfl
      rw [dget_merge_data_plot results fs hm, hd1]
    · have hbad2 : looks_bad_plot s = false := by
        cases hc : looks_bad_plot s with
        | true => exact absurd hc hbad
        | false => rfl
      have hcond : (!(pyStrip s == "") && !looks_bad_plot s) = true := by
        simp [hb, hbad2]
      have hd1 : dget (plotBlock results fs []) "plot" = some (.pstr (pyStrip s)) := by
        unfold plotBlock
        rw [if_neg hif]
        simp only [hpick, hcond, if_true]
        rw [dget_dset]
        simp
      have hm : dmem (plotBlock results fs []) "plot" = true := by
        unfold dmem
        rw [hd1]
        rfl
      rw [dget_merge_data_plot results fs hm, hd1]

/-- C4 witness: the two-result scenario of the spec: a meta-blob plot selected by
priority (dmm is the default plot preference) is replaced by the clean plot of the
other result. -/
theorem c4_witness :
    dget (merge_results
        [{ source := "javbus",
           data := [("plot", .pstr "a clean believable plot text of useful length")] },
         { source := "dmm",
           data := [("plot", .pstr "[发布日期] 2024-01-01，[时长] 120 分钟")] }]
        none).data "plot" =
      some (.pstr "a clean believable plot text of useful length") := by
  have h := (c4_plot_quality_fallback
      [{ source := "javbus",
         data := [("plot", .pstr "a clean believable plot text of useful length")] },
       { source := "dmm",
         data := [("plot", .pstr "[发布日期] 2024-01-01，[时长] 120 分钟")] }]
      none rfl).2.1
      "[发布日期] 2024-01-01，[时长] 120 分钟"
      "a clean believable plot text of useful length"
  exact h rfl (Or.inr rfl) rfl

theorem c5_scenario (A B : String) (va vb : PyVal) (hAB : A ≠ B)
    (hvb : vb.isEmptyVal = false) :
    dget (merge_results [{ source := A, data := [("actors", va)] },
        { source := B, data := [("actors", vb)] }]
        (some [("actors", [B, A])])).data "actors" = some vb := by
  have hnd : field_disabled "actors" (some [("actors", [B, A])]) = false := rfl
  have hBA : (B == A) = false := by
    rw [beq_eq_false_iff_ne]
    exact fun he => hAB he.symm
  have hAA : (A == A) = true := by simp
  have hBB : (B == B) = true := by simp
  have hrankA : rank_for "actors" A (some [("actors", [B, A])]) = 1 := by
    simp [rank_for, fsTruthy, fsGet, List.find?, listIndex, hBA, hAA]
  have hrankB : rank_for "actors" B (some [("actors", [B, A])]) = 0 := by
    simp [rank_for, fsTruthy, fsGet, List.find?, listIndex, hBB]
  have hgb : (keyGetter "actors" { source := B, data := [("actors", vb)] }).isEmptyVal
      = false := by
    rw [show keyGetter "actors" { source := B, data := [("actors", vb)] } = vb from rfl]
    exact hvb
  have hpickA : pick_by_priority
      [{ source := A, data := [("actors", va)] }, { source := B, data := [("actors", vb)] }]
      "actors" (keyGetter "actors") (some [("actors", [B, A])]) = vb := by
    obtain ⟨i, r, hi, hne, hpick, hmin⟩ :=
      pick_by_priority_spec
        [{ source := A, data := [("actors", va)] },
         { source := B, data := [("actors", vb)] }]
        "actors" (keyGetter "actors") (some [("actors", [B, A])]) hnd
        ⟨{ source := B, data := [("actors", vb)] },
          List.mem_cons_of_mem _ (List.mem_cons_self _ _), hgb⟩
    match i, hi with
    | 0, hi =>
      exfalso
      have hri : r = { source := A, data := [("actors", va)] } := by
        have h0 : ([{ source := A, data := [("actors", va)] },
            { source := B, data := [("actors", vb)] }] :
            List CrawlResult)[0]? = some { source := A, data := [("actors", va)] } := rfl
        rw [h0] at hi
        exact (Option.some.injEq _ _).mp hi.symm
      have hm := hmin 1 { source := B, data := [("actors", vb)] } rfl hgb
      rw [hri] at hm
      unfold pickKeyLE at hm
      simp only at hm
      rw [hrankA, hrankB] at hm
      omega
    | 1, hi =>
      have hri : r = { source := B, data := [("actors", vb)] } := by
        have h1 : ([{ source := A, data := [("actors", va)] },
            { source := B, data := [("actors", vb)] }] :
            List CrawlResult)[1]? = some { source := B, data := [("actors", vb)] } := rfl
        rw [h1] at hi
        exact (Option.some.injEq _ _).mp hi.symm
      rw [hpick, hri]
      exact rfl
    | (i2 + 2), hi =>
      exfalso
      rw [List.getElem?_eq_none (by simp)] at hi
      exact Option.noConfusion hi
  have hpickEmpty : ∀ (getter : CrawlResult → PyVal) (fieldName : String),
      getter { source := A, data := [("actors", va)] } = .pnone →
      getter { source := B, data := [("actors", vb)] } = .pnone →
      pick_by_priority
        [{ source := A, data := [("actors", va)] },
         { source := B, data := [("actors", vb)] }]
        fieldName getter (some [("actors", [B, A])]) = .pnone := by
    intro getter fieldName hga hgb2
    apply pick_by_priority_of_all_empty
    intro r hr
    rcases List.mem_cons.mp hr with rfl | hr2
    · rw [hga]; rfl
    · rcases List.mem_cons.mp hr2 with rfl | hr3
      · rw [hgb2]; rfl
      · exact absurd hr3 (List.not_mem_nil r)
  have hd1 : plotBlock
      [{ source := A, data := [("actors", va)] }, { source := B, data := [("actors", vb)] }]
      (some [("actors", [B, A])]) [] = [] := by
    have hpd : field_disabled "plot" (some [("actors", [B, A])]) = false := rfl
    unfold plotBlock
    rw [if_neg (by simp [hpd])]
    rw [hpickEmpty plotGetter "plot" rfl rfl]
    exact rfl
  have hstepEmpty : ∀ (k : String) (d : List (String × PyVal)),
      pick_by_priority
        [{ source := A, data := [("actors", va)] },
         { source := B, data := [("actors", vb)] }]
        k (keyGetter k) (some [("actors", [B, A])]) = .pnone →
      loopStep
        [{ source := A, data := [("actors", va)] },
         { source := B, data := [("actors", vb)] }]
        (some [("actors", [B, A])]) d k = d := by
    intro k d hp
    unfold loopStep
    by_cases hdk : field_disabled k (some [("actors", [B, A])])
    · rw [if_pos hdk]
    · rw [if_neg hdk]
      simp only [hp]
      rfl
  have hgetNe : ∀ (k : String), ¬(k = "actors") →
      pick_by_priority
        [{ source := A, data := [("actors", va)] },
         { source := B, data := [("actors", vb)] }]
        k (keyGetter k) (some [("actors", [B, A])]) = .pnone := by
    intro k hk
    have hak : ("actors" == k) = false := by
      rw [beq_eq_false_iff_ne]
      exact fun he => hk he.symm
    apply hpickEmpty
    · simp [keyGetter, dgetVal, dget, List.find?, hak]
    · simp [keyGetter, dgetVal, dget, List.find?, hak]
  have hd2 : loopBlock
      [{ source := A, data := [("actors", va)] }, { source := B, data := [("actors", vb)] }]
      (some [("actors", [B, A])]) [] = [("actors", vb)] := by
    have hstepA : loopStep
        [{ source := A, data := [("actors", va)] },
         { source := B, data := [("actors", vb)] }]
        (some [("actors", [B, A])]) [] "actors" = [("actors", vb)] := by
      unfold loopStep
      rw [if_neg (by rw [hnd]; simp)]
      simp only [hpickA, hvb, Bool.not_false, if_true]
      rfl
    unfold loopBlock loopKeys
    simp only [List.foldl_cons, List.foldl_nil]
    rw [hstepA,
      hstepEmpty "studio" _ (hgetNe "studio" (by decide)),
      hstepEmpty "series" _ (hgetNe "series" (by decide)),
      hstepEmpty "release" _ (hgetNe "release" (by decide)),
      hstepEmpty "runtime" _ (hgetNe "runtime" (by decide)),
      hstepEmpty "directors" _ (hgetNe "directors" (by decide)),
      hstepEmpty "tags" _ (hgetNe "tags" (by decide))]
  have hd3 : trailerBlock
      [{ source := A, data := [("actors", va)] }, { source := B, data := [("actors", vb)] }]
      (some [("actors", [B, A])]) [("actors", vb)] = [("actors", vb)] := by
    have htd : field_disabled "trailer_url" (some [("actors", [B, A])]) = false := rfl
    unfold trailerBlock
    rw [if_neg (by simp [htd])]
    rw [hpickEmpty trailerGetter "trailer_url" rfl rfl]
  have hd4 : artworkBlock
      [{ source := A, data := [("actors", va)] }, { source := B, data := [("actors", vb)] }]
      (some [("actors", [B, A])]) [("actors", vb)] = [("actors", vb)] := by
    unfold artworkBlock
    simp only [hpickEmpty posterGetter "poster_url" rfl rfl,
      hpickEmpty fanartGetter "fanart_url" rfl rfl,
      hpickEmpty (keyGetter "preview_urls") "preview_urls" rfl rfl]
    by_cases h1 : field_disabled "poster_url" (some [("actors", [B, A])]) <;>
      by_cases h2 : field_disabled "fanart_url" (some [("actors", [B, A])]) <;>
        by_cases h3 : field_disabled "preview_urls" (some [("actors", [B, A])]) <;>
          simp [h1, h2, h3]
  unfold merge_results
  simp only
  rw [hd1, hd2, hd3, hd4]
  rw [dget_fallbackPass _ _ _ (by rfl)]
  rfl

/-- C5: for every priority-resolved field, candidates are ranked by the pair
(index in the applicable priority list, with 10000 as sentinel for unlisted
sources; then original results order), and the first candidate in that order whose
extracted value is non-empty wins.  In particular, with fieldSources mapping a
field to the two sources in the order B before A, and both results supplying
non-empty values, the merged value is the one from B even though the result from A
comes first in the input list. -/
theorem c5_merge_priority :
    (∀ (results : List CrawlResult) (fieldName : String) (getter : CrawlResult → PyVal)
        (fs : Option FieldSources),
      field_disabled fieldName fs = false →
      (∃ r ∈ results, (getter r).isEmptyVal = false) →
      ∃ i r, results[i]? = some r ∧ (getter r).isEmptyVal = false ∧
        pick_by_priority results fieldName getter fs = getter r ∧
        ∀ j rr, results[j]? = some rr → (getter rr).isEmptyVal = false →
          pickKeyLE fieldName fs (i, r) (j, rr)) ∧
    (∀ (A B : String) (va vb : PyVal), A ≠ B →
      va.isEmptyVal = false → vb.isEmptyVal = false →
      dget (merge_results [{ source := A, data := [("actors", va)] },
          { source := B, data := [("actors", vb)] }]
          (some [("actors", [B, A])])).data "actors" = some vb) :=
  ⟨fun results fieldName getter fs hnd hex =>
      pick_by_priority_spec results fieldName getter fs hnd hex,
   fun A B va vb hAB _ hvb => c5_scenario A B va vb hAB hvb⟩

/-- C5 witness: the two-source scenario at concrete inputs: javbus appears first in
the results, but the fieldSources order javtrailers before javbus makes the
javtrailers actors win. -/
theorem c5_witness :
    dget (merge_results [{ source := "javbus", data := [("actors", .plist [.pstr "X"])] },
        { source := "javtrailers", data := [("actors", .plist [.pstr "Y"])] }]
        (some [("actors", ["javtrailers", "javbus"])])).data "actors" =
      some (.plist [.pstr "Y"]) :=
  (c5_merge_priority).2 "javbus" "javtrailers" (.plist [.pstr "X"]) (.plist [.pstr "Y"])
    (by decide) rfl rfl

/-! ### Variant-selection lemmas and claim C1 -/

theorem qualityGT_asym : ∀ a b, qualityGT a b = true → qualityGT b a = false := by
  intro a b h
  cases hc : qualityGT b a with
  | false => rfl
  | true =>
    exfalso
    simp only [qualityGT, hKey, Bool.or_eq_true, Bool.and_eq_true, decide_eq_true_eq,
      beq_iff_eq] at h hc
    omega

theorem qualityGT_trans : ∀ a b c, qualityGT a b = true → qualityGT b c = true →
    qualityGT a c = true := by
  intro a b c h1 h2
  simp only [qualityGT, hKey, Bool.or_eq_true, Bool.and_eq_true, decide_eq_true_eq,
    beq_iff_eq] at h1 h2 ⊢
  omega

theorem distLT_asym (targetH : Nat) : ∀ a b, distLT targetH a b = true →
    distLT targetH b a = false := by
  intro a b h
  cases hc : distLT targetH b a with
  | false => rfl
  | true =>
    exfalso
    simp only [distLT, Bool.or_eq_true, Bool.and_eq_true, decide_eq_true_eq,
      beq_iff_eq] at h hc
    omega

theorem distLT_trans (targetH : Nat) : ∀ a b c, distLT targetH a b = true →
    distLT targetH b c = true → distLT targetH a c = true := by
  intro a b c h1 h2
  simp only [distLT, Bool.or_eq_true, Bool.and_eq_true, decide_eq_true_eq,
    beq_iff_eq] at h1 h2 ⊢
  omega

theorem bwGT_asym : ∀ a b : Variant, bwGT a b = true → bwGT b a = false := by
  intro a b h
  cases hc : bwGT b a with
  | false => rfl
  | true =>
    exfalso
    simp only [bwGT, decide_eq_true_eq] at h hc
    omega

theorem bwGT_trans : ∀ a b c : Variant, bwGT a b = true → bwGT b c = true →
    bwGT a c = true := by
  intro a b c h1 h2
  simp only [bwGT, decide_eq_true_eq] at h1 h2 ⊢
  omega

theorem stableSortBy_ne_nil {α : Type} (lt : α → α → Bool) (l : List α) (h : l ≠ []) :
    stableSortBy lt l ≠ [] := by
  obtain ⟨x, hx⟩ := List.exists_mem_of_ne_nil l h
  intro he
  have hm := (mem_stableSortBy lt l x).mpr hx
  rw [he] at hm
  exact absurd hm (List.not_mem_nil x)

theorem head?_stableSortBy {α : Type} (lt : α → α → Bool)
    (asym : ∀ x y, lt x y = true → lt y x = false)
    (htrans : ∀ x y z, lt x y = true → lt y z = true → lt x z = true)
    (l : List α) (h : l ≠ []) :
    ∃ c, (stableSortBy lt l).head? = some c ∧ c ∈ l ∧ ∀ y ∈ l, lt y c = false := by
  cases hs : stableSortBy lt l with
  | nil => exact absurd hs (stableSortBy_ne_nil lt l h)
  | cons x rest =>
    obtain ⟨hm, hmin⟩ := head_stableSortBy_min lt asym htrans l x rest hs
    exact ⟨x, rfl, hm, hmin⟩

/-- C1 counterexample: with a null target, the claim says unknown-height variants
sort below known-height variants, hence variant b (known height 0) should beat
variant a (unknown height).  The code keys unknown heights as 0 and returns a by
its larger bandwidth, even though a is strictly below b in the claim's order. -/
theorem c1_counterexample :
    selectFromCandidates [⟨"a", 2, none⟩, ⟨"b", 1, some 0⟩] none = some "a" ∧
    specNullLT ⟨"a", 2, none⟩ ⟨"b", 1, some 0⟩ := by
  constructor
  · rfl
  · unfold specNullLT specNullKey
    decide

/-- C1 (amended): for every candidate list (variants with a usable URI, as built
from the master playlist) and target: if some candidate has a known height at most
the target, the selection returns a candidate maximal in (height, bandwidth) among
those; else, if some candidate has a known height, it returns one minimal in
(distance to target, negated bandwidth); else it returns one of maximal bandwidth.
With a null target it returns a candidate maximal in (height-or-0, bandwidth):
unknown heights are keyed as 0, so they sort below positive known heights but tie
with a known height 0 (bandwidth then decides). -/
theorem c1_variant_selection (cands : List Variant) :
    (∀ targetH : Nat, (∃ c ∈ cands, ∃ h, c.height = some h ∧ h ≤ targetH) →
      ∃ c ∈ underTarget cands targetH,
        selectFromCandidates cands (some targetH) = some c.uri ∧
        ∀ d ∈ underTarget cands targetH, qualityGT d c = false) ∧
    (∀ targetH : Nat, underTarget cands targetH = [] → knownHeight cands ≠ [] →
      ∃ c ∈ knownHeight cands,
        selectFromCandidates cands (some targetH) = some c.uri ∧
        ∀ d ∈ knownHeight cands, distLT targetH d c = false) ∧
    (∀ targetH : Nat, knownHeight cands = [] → cands ≠ [] →
      ∃ c ∈ cands, selectFromCandidates cands (some targetH) = some c.uri ∧
        ∀ d ∈ cands, d.bandwidth ≤ c.bandwidth) ∧
    (cands ≠ [] →
      ∃ c ∈ cands, selectFromCandidates cands none = some c.uri ∧
        ∀ d ∈ cands, qualityGT d c = false) := by
  refine ⟨?_, ?_, ?_, ?_⟩
  · intro targetH hex
    obtain ⟨c0, hc0, h0, hh0, hle0⟩ := hex
    have hmem : c0 ∈ underTarget cands targetH := by
      rw [underTarget, List.mem_filter]
      refine ⟨hc0, ?_⟩
      rw [hh0]
      simpa using hle0
    have hne : underTarget cands targetH ≠ [] := by
      intro he
      rw [he] at hmem
      exact absurd hmem (List.not_mem_nil c0)
    have hcne : cands ≠ [] := by
      intro he
      rw [he] at hc0
      exact absurd hc0 (List.not_mem_nil c0)
    obtain ⟨c, hhead, hcm, hmin⟩ :=
      head?_stableSortBy qualityGT qualityGT_asym qualityGT_trans
        (underTarget cands targetH) hne
    refine ⟨c, hcm, ?_, hmin⟩
    have h1 : cands.isEmpty = false := by simp [List.isEmpty_iff, hcne]
    have h2 : (underTarget cands targetH).isEmpty = false := by
      simp [List.isEmpty_iff, hne]
    simp only [selectFromCandidates, h1, Bool.false_eq_true, if_false, h2, Bool.not_false,
      if_true, hhead, Option.map_some']
  · intro targetH hu hk
    obtain ⟨c, hhead, hcm, hmin⟩ :=
      head?_stableSortBy (distLT targetH) (distLT_asym targetH) (distLT_trans targetH)
        (knownHeight cands) hk
    have hcne : cands ≠ [] := by
      intro he
      rw [he] at hk
      exact hk rfl
    refine ⟨c, hcm, ?_, hmin⟩
    have h1 : cands.isEmpty = false := by simp [List.isEmpty_iff, hcne]
    have h2 : (underTarget cands targetH).isEmpty = true := by simp [hu]
    have h3 : (knownHeight cands).isEmpty = false := by simp [List.isEmpty_iff, hk]
    simp only [selectFromCandidates, h1, Bool.false_eq_true, if_false, h2, Bool.not_true,
      h3, Bool.not_false, if_true, hhead, Option.map_some']
  · intro targetH hk hcne
    obtain ⟨c, hhead, hcm, hmin⟩ :=
      head?_stableSortBy bwGT bwGT_asym bwGT_trans cands hcne
    have hu : underTarget cands targetH = [] := by
      rw [underTarget, List.filter_eq_nil_iff]
      intro c2 hc2
      cases hh : c2.height with
      | none => simp
      | some h2 =>
        exfalso
        have : c2 ∈ knownHeight cands := by
          rw [knownHeight, List.mem_filter]
          exact ⟨hc2, by simp [hh]⟩
        rw [hk] at this
        exact absurd this (List.not_mem_nil c2)
    refine ⟨c, hcm, ?_, ?_⟩
    · have h1 : cands.isEmpty = false := by simp [List.isEmpty_iff, hcne]
      have h2 : (underTarget cands targetH).isEmpty = true := by simp [hu]
      have h3 : (knownHeight cands).isEmpty = true := by simp [hk]
      simp only [selectFromCandidates, h1, Bool.false_eq_true, if_false, h2, Bool.not_true,
        h3, hhead, Option.map_some']
    · intro d hd
      have h4 := hmin d hd
      simp only [bwGT, decide_eq_false_iff_not, Nat.not_lt] at h4
      exact h4
  · intro hcne
    obtain ⟨c, hhead, hcm, hmin⟩ :=
      head?_stableSortBy qualityGT qualityGT_asym qualityGT_trans cands hcne
    refine ⟨c, hcm, ?_, hmin⟩
    have h1 : cands.isEmpty = false := by simp [List.isEmpty_iff, hcne]
    simp only [selectFromCandidates, h1, Bool.false_eq_true, if_false, hhead,
      Option.map_some']

/-- C1 witness: the spec's end-to-end scenario: 360p/500k, 720p/2000k, 1080p/4000k
with target 720 selects the 720p variant. -/
theorem c1_witness :
    selectFromCandidates
      [⟨"u360", 500000, some 360⟩, ⟨"u720", 2000000, some 720⟩,
       ⟨"u1080", 4000000, some 1080⟩] (some 720) = some "u720" := by
  obtain ⟨c, hcm, hsel, hmax⟩ :=
    (c1_variant_selection
      [⟨"u360", 500000, some 360⟩, ⟨"u720", 2000000, some 720⟩,
       ⟨"u1080", 4000000, some 1080⟩]).1 720
      ⟨⟨"u720", 2000000, some 720⟩, by decide, 720, rfl, by decide⟩
  have hu : underTarget
      [⟨"u360", 500000, some 360⟩, ⟨"u720", 2000000, some 720⟩,
       ⟨"u1080", 4000000, some 1080⟩] 720 =
      [⟨"u360", 500000, some 360⟩, ⟨"u720", 2000000, some 720⟩] := rfl
  rw [hu] at hcm
  have hcases : c = (⟨"u360", 500000, some 360⟩ : Variant) ∨
      c = (⟨"u720", 2000000, some 720⟩ : Variant) := by
    rcases List.mem_cons.mp hcm with h1 | h2
    · exact Or.inl h1
    · rcases List.mem_cons.mp h2 with h3 | h4
      · exact Or.inr h3
      · exact absurd h4 (List.not_mem_nil c)
  rcases hcases with rfl | rfl
  · exfalso
    have h2 := hmax ⟨"u720", 2000000, some 720⟩ (by decide)
    exact absurd h2 (by decide)
  · rw [hsel]

/-! ### Scheduler lemmas -/

theorem downloadSegment_k (env : Env) (k i a : Nat) :
    (downloadSegment env k i a).1 = k + 1 := by
  unfold downloadSegment
  split
  · rfl
  · split
    · rfl
    · split <;> rfl

theorem downloadSegment_not_cancelled (env : Env) (k i a : Nat)
    (h : (downloadSegment env k i a).2.1 ≠ .cancelled) : env.cancel k = false := by
  cases he : env.cancel k with
  | false => rfl
  | true =>
    exfalso
    apply h
    unfold downloadSegment
    rw [he]
    rfl

theorem submitNext_k (n : Nat) (st : SchedSt) : (submitNext n st).k = st.k := by
  unfold submitNext
  split <;> rfl

theorem submitNext_len (n : Nat) (st : SchedSt) :
    (submitNext n st).pending.length ≤ st.pending.length + 1 := by
  unfold submitNext
  split
  · simp
  · simp

theorem submitNext_len_ge (n : Nat) (st : SchedSt) :
    st.pending.length ≤ (submitNext n st).pending.length := by
  unfold submitNext
  split
  · simp
  · simp

theorem submitNext_hw (n : Nat) (st : SchedSt) :
    (submitNext n st).hw ≤ max st.hw (st.pending.length + 1) := by
  unfold submitNext
  split
  · simp
  · simp

theorem submitNext_files (n : Nat) (st : SchedSt) :
    (submitNext n st).files = st.files := by
  unfold submitNext
  split <;> rfl

theorem submitNext_failed (n : Nat) (st : SchedSt) :
    (submitNext n st).failed = st.failed := by
  unfold submitNext
  split <;> rfl

theorem submitNext_sub_eq (n : Nat) (st : SchedSt) (h : st.submitted = st.nextIdx) :
    (submitNext n st).submitted = (submitNext n st).nextIdx := by
  unfold submitNext
  split
  · simp [h]
  · exact h

theorem submitNext_nextIdx_le (n : Nat) (st : SchedSt) (h : st.nextIdx ≤ n) :
    (submitNext n st).nextIdx ≤ n := by
  unfold submitNext
  split
  · simp
    omega
  · exact h

theorem submitNext_inv (n : Nat) (st : SchedSt) (h : st.nextIdx ≤ n) :
    (submitNext n st).pending = [] → (submitNext n st).nextIdx = n := by
  unfold submitNext
  split
  · intro he
    simp at he
  · intro _
    omega

theorem submitNext_measure (n : Nat) (st : SchedSt) :
    (submitNext n st).pending.length + (n - (submitNext n st).nextIdx) ≤
      st.pending.length + (n - st.nextIdx) := by
  unfold submitNext
  split
  · simp
    omega
  · exact Nat.le_refl _

theorem seedLoop_done (env : Env) (n : Nat) :
    ∀ (c : Nat) (st st2 : SchedSt), seedLoop env n c st = .done st2 →
      st.k ≤ st2.k ∧
      (∀ j, st.k ≤ j → j < st2.k → env.cancel j = false) ∧
      st2.pending.length ≤ st.pending.length + c ∧
      st2.hw ≤ max st.hw (st.pending.length + c) ∧
      st.pending.length ≤ st2.pending.length ∧
      (st.nextIdx ≤ n → st2.nextIdx ≤ n) ∧
      (st.submitted = st.nextIdx → st2.submitted = st2.nextIdx) ∧
      (0 < c → st.nextIdx ≤ n → 0 < st2.pending.length ∨ st2.nextIdx = n) := by
  intro c
  induction c with
  | zero =>
    intro st st2 he
    unfold seedLoop at he
    cases he
    refine ⟨Nat.le_refl _, ?_, by omega, by omega, Nat.le_refl _, fun h => h, fun h => h,
      ?_⟩
    · intro j h1 h2
      omega
    · intro h0
      omega
  | succ c ih =>
    intro st st2 he
    unfold seedLoop at he
    by_cases hc : env.cancel st.k <;> rw [eq_comm] at hc
    case pos =>
      rw [if_pos hc.symm] at he
      cases he
    case neg =>
      have hc2 : env.cancel st.k = false := by
        cases hcc : env.cancel st.k with
        | false => rfl
        | true => exact absurd hcc.symm hc
      rw [if_neg (by simp [hc2])] at he
      by_cases hn : st.nextIdx < n
      · rw [if_pos hn] at he
        obtain ⟨h1, h2, h3, h4, h5, h6, h7, h8⟩ := ih _ _ he
        have hrec1 : ({ st with k := st.k + 1 } : SchedSt).pending = st.pending := rfl
        have hrec2 : ({ st with k := st.k + 1 } : SchedSt).hw = st.hw := rfl
        have hrec3 : ({ st with k := st.k + 1 } : SchedSt).nextIdx = st.nextIdx := rfl
        have hrec4 : ({ st with k := st.k + 1 } : SchedSt).submitted = st.submitted := rfl
        have hrec5 : ({ st with k := st.k + 1 } : SchedSt).k = st.k + 1 := rfl
        have hlen := submitNext_len n { st with k := st.k + 1 }
        have hlenge := submitNext_len_ge n { st with k := st.k + 1 }
        have hhw := submitNext_hw n { st with k := st.k + 1 }
        rw [hrec1] at hlen hlenge
        rw [hrec2] at hhw
        rw [hrec1] at hhw
        rw [submitNext_k, hrec5] at h1
        have h2b : ∀ j, st.k + 1 ≤ j → j < st2.k → env.cancel j = false := by
          intro j hj1 hj2
          have := h2 j
          rw [submitNext_k, hrec5] at this
          exact this hj1 hj2
        refine ⟨by omega, ?_, by omega, by omega, by omega, ?_, ?_, ?_⟩
        · intro j hj1 hj2
          by_cases hj : j = st.k
          · rw [hj]; exact hc2
          · exact h2b j (by omega) hj2
        · intro hle
          apply h6
          apply submitNext_nextIdx_le
          rw [hrec3]
          exact hle
        · intro hsub
          apply h7
          apply submitNext_sub_eq
          rw [hrec3, hrec4]
          exact hsub
        · intro _ hle
          have hpos : 0 < (submitNext n { st with k := st.k + 1 }).pending.length := by
            unfold submitNext
            rw [if_pos (by rw [hrec3]; exact hn)]
            simp
          omega
      · rw [if_neg hn] at he
        cases he
        refine ⟨?_, ?_, ?_, ?_, ?_, ?_, ?_, ?_⟩
        · show st.k ≤ st.k + 1
          omega
        · intro j hj1 hj2
          have hj2b : j < st.k + 1 := hj2
          have hj : j = st.k := by omega
          rw [hj]
          exact hc2
        · show st.pending.length ≤ st.pending.length + (c + 1)
          omega
        · show st.hw ≤ max st.hw (st.pending.length + (c + 1))
          omega
        · show st.pending.length ≤ st.pending.length
          omega
        · intro h
          exact h
        · intro h
          exact h
        · intro _ hle
          right
          show st.nextIdx = n
          omega

theorem seedLoop_cancelled_hw (env : Env) (n : Nat) :
    ∀ (c : Nat) (st : SchedSt) (k hw : Nat), seedLoop env n c st = .cancelled k hw →
      hw ≤ max st.hw (st.pending.length + c) := by
  intro c
  induction c with
  | zero =>
    intro st k hw he
    unfold seedLoop at he
    cases he
  | succ c ih =>
    intro st k hw he
    unfold seedLoop at he
    split at he
    · cases he
      omega
    · split at he
      · have h1 := ih _ _ _ he
        have h2 := submitNext_hw n { st with k := st.k + 1 }
        have h3 := submitNext_len n { st with k := st.k + 1 }
        simp only at h2 h3
        omega
      · cases he

theorem drainOk_k (st : SchedSt) (k1 : Nat) (p2 : List Nat) (i nsz : Nat)
    (w : Option (Nat × Nat)) : (drainOk st k1 p2 i nsz w).k = k1 := rfl

theorem drainOk_pending (st : SchedSt) (k1 : Nat) (p2 : List Nat) (i nsz : Nat)
    (w : Option (Nat × Nat)) : (drainOk st k1 p2 i nsz w).pending = p2 := rfl

theorem drainOk_nextIdx (st : SchedSt) (k1 : Nat) (p2 : List Nat) (i nsz : Nat)
    (w : Option (Nat × Nat)) : (drainOk st k1 p2 i nsz w).nextIdx = st.nextIdx := rfl

theorem drainOk_submitted (st : SchedSt) (k1 : Nat) (p2 : List Nat) (i nsz : Nat)
    (w : Option (Nat × Nat)) : (drainOk st k1 p2 i nsz w).submitted = st.submitted := rfl

theorem drainOk_hw (st : SchedSt) (k1 : Nat) (p2 : List Nat) (i nsz : Nat)
    (w : Option (Nat × Nat)) : (drainOk st k1 p2 i nsz w).hw = st.hw := rfl

theorem drainExn_k (st : SchedSt) (k1 : Nat) (p2 : List Nat) (i : Nat) :
    (drainExn st k1 p2 i).k = k1 := rfl

theorem drainExn_pending (st : SchedSt) (k1 : Nat) (p2 : List Nat) (i : Nat) :
    (drainExn st k1 p2 i).pending = p2 := rfl

theorem drainExn_nextIdx (st : SchedSt) (k1 : Nat) (p2 : List Nat) (i : Nat) :
    (drainExn st k1 p2 i).nextIdx = st.nextIdx := rfl

theorem drainExn_submitted (st : SchedSt) (k1 : Nat) (p2 : List Nat) (i : Nat) :
    (drainExn st k1 p2 i).submitted = st.submitted := rfl

theorem drainExn_hw (st : SchedSt) (k1 : Nat) (p2 : List Nat) (i : Nat) :
    (drainExn st k1 p2 i).hw = st.hw := rfl

theorem bumpK_k (st : SchedSt) : (bumpK st).k = st.k + 1 := rfl

theorem bumpK_pending (st : SchedSt) : (bumpK st).pending = st.pending := rfl

theorem bumpK_nextIdx (st : SchedSt) : (bumpK st).nextIdx = st.nextIdx := rfl

theorem bumpK_submitted (st : SchedSt) : (bumpK st).submitted = st.submitted := rfl

theorem bumpK_hw (st : SchedSt) : (bumpK st).hw = st.hw := rfl

theorem restPending_length (env : Env) (t : Nat) (st : SchedSt)
    (h : st.pending ≠ []) :
    (restPending env t st).length = st.pending.length - 1 := by
  unfold restPending pickIdx
  rw [List.length_eraseIdx]
  have hpos : 0 < st.pending.length := List.length_pos.mpr h
  simp [Nat.mod_lt _ hpos]

theorem schedLoop_done (env : Env) (n : Nat) :
    ∀ (fuel t : Nat) (st st2 : SchedSt), schedLoop env n fuel t st = .done st2 →
      st.k ≤ st2.k ∧
      (∀ j, st.k ≤ j → j < st2.k → env.cancel j = false) ∧
      (st.submitted = st.nextIdx → st2.submitted = st2.nextIdx) ∧
      (st.nextIdx ≤ n → st2.nextIdx ≤ n) := by
  intro fuel
  induction fuel with
  | zero =>
    intro t st st2 he
    unfold schedLoop at he
    cases he
    exact ⟨Nat.le_refl _, fun j h1 h2 => absurd h2 (by omega), fun h => h, fun h => h⟩
  | succ fuel ih =>
    intro t st st2 he
    unfold schedLoop at he
    cases hpend : st.pending with
    | nil =>
      rw [hpend] at he
      simp only at he
      cases he
      exact ⟨Nat.le_refl _, fun j h1 h2 => absurd h2 (by omega), fun h => h, fun h => h⟩
    | cons p0 prest =>
      rw [hpend] at he
      simp only at he
      cases hc : env.cancel st.k with
      | true =>
        rw [hc] at he
        simp at he
      | false =>
        rw [hc] at he
        simp only [Bool.false_eq_true, if_false] at he
        rcases hds : downloadSegment env (st.k + 1) (pickSeg env t st) 0 with ⟨k1, res, w⟩
        rw [hds] at he
        have hk1 : k1 = st.k + 2 := by
          have h0 := downloadSegment_k env (st.k + 1) (pickSeg env t st) 0
          rw [hds] at h0
          simpa using h0
        have hworker : env.cancel (st.k + 1) = false ∨ res = .cancelled := by
          cases hres : res with
          | cancelled => exact Or.inr rfl
          | ok m =>
            left
            apply downloadSegment_not_cancelled env (st.k + 1) (pickSeg env t st) 0
            rw [hds, hres]
            simp
          | exn =>
            left
            apply downloadSegment_not_cancelled env (st.k + 1) (pickSeg env t st) 0
            rw [hds, hres]
            simp
        cases res with
        | cancelled => simp at he
        | ok nsz =>
          simp only [] at he
          cases hc1 : env.cancel k1 with
          | true =>
            rw [hc1] at he
            simp at he
          | false =>
            rw [hc1] at he
            simp only [Bool.false_eq_true, if_false] at he
            obtain ⟨h1, h2, h3, h4⟩ := ih _ _ _ he
            have hsk : (submitNext n
                (bumpK (drainOk st k1 (restPending env t st) (pickSeg env t st) nsz w))).k
                = k1 + 1 := by
              rw [submitNext_k, bumpK_k, drainOk_k]
            rw [hsk] at h1 h2
            have hw2 : env.cancel (st.k + 1) = false := by
              rcases hworker with h | h
              · exact h
              · cases h
            refine ⟨by omega, ?_, ?_, ?_⟩
            · intro j hj1 hj2
              by_cases hj : j = st.k
              · rw [hj]; exact hc
              · by_cases hj2b : j = st.k + 1
                · rw [hj2b]; exact hw2
                · by_cases hj3 : j = k1
                  · rw [hj3]; exact hc1
                  · exact h2 j (by omega) hj2
            · intro hsub
              apply h3
              rw [submitNext_sub_eq]
              rw [bumpK_submitted, bumpK_nextIdx, drainOk_submitted, drainOk_nextIdx]
              exact hsub
            · intro hle
              apply h4
              apply submitNext_nextIdx_le
              rw [bumpK_nextIdx, drainOk_nextIdx]
              exact hle
        | exn =>
          simp only [] at he
          cases hc1 : env.cancel k1 with
          | true =>
            rw [hc1] at he
            simp at he
          | false =>
            rw [hc1] at he
            simp only [Bool.false_eq_true, if_false] at he
            obtain ⟨h1, h2, h3, h4⟩ := ih _ _ _ he
            have hsk : (submitNext n
                (bumpK (drainExn st k1 (restPending env t st) (pickSeg env t st)))).k
                = k1 + 1 := by
              rw [submitNext_k, bumpK_k, drainExn_k]
            rw [hsk] at h1 h2
            have hw2 : env.cancel (st.k + 1) = false := by
              rcases hworker with h | h
              · exact h
              · cases h
            refine ⟨by omega, ?_, ?_, ?_⟩
            · intro j hj1 hj2
              by_cases hj : j = st.k
              · rw [hj]; exact hc
              · by_cases hj2b : j = st.k + 1
                · rw [hj2b]; exact hw2
                · by_cases hj3 : j = k1
                  · rw [hj3]; exact hc1
                  · exact h2 j (by omega) hj2
            · intro hsub
              apply h3
              rw [submitNext_sub_eq]
              rw [bumpK_submitted, bumpK_nextIdx, drainExn_submitted, drainExn_nextIdx]
              exact hsub
            · intro hle
              apply h4
              apply submitNext_nextIdx_le
              rw [bumpK_nextIdx, drainExn_nextIdx]
              exact hle

theorem schedLoop_hw (env : Env) (n m : Nat) :
    ∀ (fuel t : Nat) (st : SchedSt), st.pending.length ≤ m → st.hw ≤ m →
      hwOf (schedLoop env n fuel t st) ≤ m ∧
      (∀ st2, schedLoop env n fuel t st = .done st2 → st2.pending.length ≤ m) := by
  intro fuel
  induction fuel with
  | zero =>
    intro t st h1 h2
    unfold schedLoop
    exact ⟨h2, fun st2 he => by cases he; exact h1⟩
  | succ fuel ih =>
    intro t st h1 h2
    unfold schedLoop
    cases hpend : st.pending with
    | nil =>
      simp only
      refine ⟨h2, fun st2 he => ?_⟩
      cases he
      rw [hpend]
      simp
    | cons p0 prest =>
      simp only
      cases hc : env.cancel st.k with
      | true =>
        rw [if_pos rfl]
        exact ⟨h2, fun st2 he => SchedOut.noConfusion he⟩
      | false =>
        rw [if_neg (by simp)]
        have hrest : (restPending env t st).length = st.pending.length - 1 :=
          restPending_length env t st (by rw [hpend]; simp)
        have hlenpos : 0 < st.pending.length := by rw [hpend]; simp
        rcases hds : downloadSegment env (st.k + 1) (pickSeg env t st) 0 with ⟨k1, res, w⟩
        cases res with
        | cancelled =>
          simp only []
          exact ⟨h2, fun st2 he => SchedOut.noConfusion he⟩
        | ok nsz =>
          simp only []
          cases hc1 : env.cancel k1 with
          | true =>
            rw [if_pos rfl]
            exact ⟨h2, fun st2 he => SchedOut.noConfusion he⟩
          | false =>
            rw [if_neg (by simp)]
            apply ih
            · have ha := submitNext_len n
                (bumpK (drainOk st k1 (restPending env t st) (pickSeg env t st) nsz w))
              rw [bumpK_pending, drainOk_pending, hrest] at ha
              omega
            · have ha := submitNext_hw n
                (bumpK (drainOk st k1 (restPending env t st) (pickSeg env t st) nsz w))
              rw [bumpK_hw, drainOk_hw, bumpK_pending, drainOk_pending, hrest] at ha
              omega
        | exn =>
          simp only []
          cases hc1 : env.cancel k1 with
          | true =>
            rw [if_pos rfl]
            exact ⟨h2, fun st2 he => SchedOut.noConfusion he⟩
          | false =>
            rw [if_neg (by simp)]
            apply ih
            · have ha := submitNext_len n
                (bumpK (drainExn st k1 (restPending env t st) (pickSeg env t st)))
              rw [bumpK_pending, drainExn_pending, hrest] at ha
              omega
            · have ha := submitNext_hw n
                (bumpK (drainExn st k1 (restPending env t st) (pickSeg env t st)))
              rw [bumpK_hw, drainExn_hw, bumpK_pending, drainExn_pending, hrest] at ha
              omega

theorem schedLoop_complete (env : Env) (n : Nat) :
    ∀ (fuel t : Nat) (st : SchedSt),
      (st.pending = [] → st.nextIdx = n) → st.nextIdx ≤ n →
      st.pending.length + (n - st.nextIdx) ≤ fuel →
      ∀ st2, schedLoop env n fuel t st = .done st2 → st2.pending = [] ∧ st2.nextIdx = n := by
  intro fuel
  induction fuel with
  | zero =>
    intro t st hinv hle hm st2 he
    unfold schedLoop at he
    cases he
    have hp : st.pending = [] := by
      cases hpend : st.pending with
      | nil => rfl
      | cons a b => rw [hpend] at hm; simp at hm
    exact ⟨hp, hinv hp⟩
  | succ fuel ih =>
    intro t st hinv hle hm st2 he
    unfold schedLoop at he
    cases hpend : st.pending with
    | nil =>
      rw [hpend] at he
      simp only at he
      cases he
      exact ⟨hpend, hinv hpend⟩
    | cons p0 prest =>
      rw [hpend] at he
      simp only at he
      cases hc : env.cancel st.k with
      | true => rw [hc] at he; simp at he
      | false =>
        rw [hc] at he
        simp only [Bool.false_eq_true, if_false] at he
        have hrest : (restPending env t st).length = st.pending.length - 1 :=
          restPending_length env t st (by rw [hpend]; simp)
        have hlenpos : 0 < st.pending.length := by rw [hpend]; simp
        rcases hds : downloadSegment env (st.k + 1) (pickSeg env t st) 0 with ⟨k1, res, w⟩
        rw [hds] at he
        cases res with
        | cancelled => simp at he
        | ok nsz =>
          simp only [] at he
          cases hc1 : env.cancel k1 with
          | true => rw [hc1] at he; simp at he
          | false =>
            rw [hc1] at he
            simp only [Bool.false_eq_true, if_false] at he
            apply ih _ _ _ _ _ _ he
            · apply submitNext_inv
              rw [bumpK_nextIdx, drainOk_nextIdx]
              exact hle
            · apply submitNext_nextIdx_le
              rw [bumpK_nextIdx, drainOk_nextIdx]
              exact hle
            · have ha := submitNext_measure n
                (bumpK (drainOk st k1 (restPending env t st) (pickSeg env t st) nsz w))
              rw [bumpK_pending, drainOk_pending, bumpK_nextIdx, drainOk_nextIdx,
                hrest] at ha
              omega
        | exn =>
          simp only [] at he
          cases hc1 : env.cancel k1 with
          | true => rw [hc1] at he; simp at he
          | false =>
            rw [hc1] at he
            simp only [Bool.false_eq_true, if_false] at he
            apply ih _ _ _ _ _ _ he
            · apply submitNext_inv
              rw [bumpK_nextIdx, drainExn_nextIdx]
              exact hle
            · apply submitNext_nextIdx_le
              rw [bumpK_nextIdx, drainExn_nextIdx]
              exact hle
            · have ha := submitNext_measure n
                (bumpK (drainExn st k1 (restPending env t st) (pickSeg env t st)))
              rw [bumpK_pending, drainExn_pending, bumpK_nextIdx, drainExn_nextIdx,
                hrest] at ha
              omega

/-- C9: throughout a scheduler run, at most maxWorkers fetches are in flight: the
high-water in-flight count never exceeds maxWorkers (whether the run completes or
is cancelled); and a completed run with at least one worker drains everything and
submits exactly one replacement per drained completion until the segment list is
exhausted: it ends with no pending futures, with submissions equal to the iterator
position, and with all n segments submitted. -/
theorem c9_bounded_concurrency (env : Env) (maxW n k0 : Nat) :
    hwOf (runScheduler env maxW n k0) ≤ maxW ∧
    (∀ st, runScheduler env maxW n k0 = .done st →
      st.pending = [] ∧ st.submitted = st.nextIdx ∧
      (1 ≤ maxW → st.nextIdx = n ∧ st.submitted = n)) := by
  unfold runScheduler
  cases hseed : seedLoop env n maxW (initSched k0) with
  | cancelled k hw =>
    simp only
    constructor
    · have h := seedLoop_cancelled_hw env n maxW (initSched k0) k hw hseed
      have h1 : (initSched k0).hw = 0 := rfl
      have h2 : (initSched k0).pending = [] := rfl
      rw [h1, h2] at h
      simp at h
      simpa using h
    · intro st he
      exact SchedOut.noConfusion he
  | done st1 =>
    simp only
    obtain ⟨g1, g2, g3, g4, g5, g6, g7, g8⟩ :=
      seedLoop_done env n maxW (initSched k0) st1 hseed
    have hi1 : (initSched k0).pending = ([] : List Nat) := rfl
    have hi2 : (initSched k0).hw = 0 := rfl
    have hi3 : (initSched k0).nextIdx = 0 := rfl
    have hi4 : (initSched k0).submitted = 0 := rfl
    rw [hi1] at g3 g4 g5
    rw [hi2] at g4
    rw [hi3] at g6 g8
    have hlen : st1.pending.length ≤ maxW := by simpa using g3
    have hhw : st1.hw ≤ maxW := by
      have := g4
      simp at this
      omega
    have hnext : st1.nextIdx ≤ n := g6 (Nat.zero_le n)
    have hsub : st1.submitted = st1.nextIdx := by
      apply g7
      rw [hi3, hi4]
    obtain ⟨b1, b2⟩ := schedLoop_hw env n maxW (maxW + n + 1) 0 st1 hlen hhw
    refine ⟨b1, ?_⟩
    intro st he
    obtain ⟨d1, d2, d3, d4⟩ := schedLoop_done env n (maxW + n + 1) 0 st1 st he
    refine ⟨?_, d3 hsub, ?_⟩
    · by_cases hmw : 1 ≤ maxW
      · have hinv : st1.pending = [] → st1.nextIdx = n := by
          intro hp
          rcases g8 (by omega) (Nat.zero_le n) with h | h
          · rw [hp] at h; simp at h
          · exact h
        exact (schedLoop_complete env n (maxW + n + 1) 0 st1 hinv hnext
          (by omega) st he).1
      · have hmw0 : maxW = 0 := by omega
        rw [hmw0] at hlen
        have hp1 : st1.pending = [] := by
          cases hpp : st1.pending with
          | nil => rfl
          | cons a b => rw [hpp] at hlen; simp at hlen
        have hinv : st1.pending = [] → st1.nextIdx = st1.nextIdx := fun _ => rfl
        -- with no workers the loop exits immediately with the seed state
        cases hfuel : (maxW + n + 1) with
        | zero => omega
        | succ f =>
          rw [hfuel] at he
          unfold schedLoop at he
          rw [hp1] at he
          simp only at he
          cases he
          exact hp1
    · intro hmw
      have hinv : st1.pending = [] → st1.nextIdx = n := by
        intro hp
        rcases g8 (by omega) (Nat.zero_le n) with h | h
        · rw [hp] at h; simp at h
        · exact h
      have hcomp := schedLoop_complete env n (maxW + n + 1) 0 st1 hinv hnext
        (by omega) st he
      exact ⟨hcomp.2, by rw [d3 hsub]; exact hcomp.2⟩

/-! ### Cancellation-check accounting -/

theorem resolveLoop_checks (env : Env) (target : Option Nat) :
    ∀ (fuel : Nat) (url : String) (k : Nat),
      (∀ pl u k2, resolveLoop env target fuel url k = .media pl u k2 →
        k ≤ k2 ∧ ∀ j, k ≤ j → j < k2 → env.cancel j = false) ∧
      (∀ k2, resolveLoop env target fuel url k = .fetchFail k2 →
        k ≤ k2 ∧ ∀ j, k ≤ j → j < k2 → env.cancel j = false) ∧
      (∀ k2, resolveLoop env target fuel url k = .noSegments k2 →
        k ≤ k2 ∧ ∀ j, k ≤ j → j < k2 → env.cancel j = false) := by
  intro fuel
  induction fuel with
  | zero =>
    intro url k
    refine ⟨?_, ?_, ?_⟩
    · intro pl u k2 he
      cases he
    · intro k2 he
      cases he
    · intro k2 he
      unfold resolveLoop at he
      cases he
      exact ⟨Nat.le_refl _, fun j h1 h2 => absurd h2 (by omega)⟩
  | succ fuel ih =>
    intro url k
    have hbody : ∀ (out : ResolveOut), resolveLoop env target (fuel + 1) url k = out →
        (∀ pl u k2, out = .media pl u k2 →
          k ≤ k2 ∧ ∀ j, k ≤ j → j < k2 → env.cancel j = false) ∧
        (∀ k2, out = .fetchFail k2 →
          k ≤ k2 ∧ ∀ j, k ≤ j → j < k2 → env.cancel j = false) ∧
        (∀ k2, out = .noSegments k2 →
          k ≤ k2 ∧ ∀ j, k ≤ j → j < k2 → env.cancel j = false) := by
      intro out he
      unfold resolveLoop at he
      cases hnet : env.net url with
      | none =>
        rw [hnet] at he
        simp only [] at he
        refine ⟨?_, ?_, ?_⟩
        · intro pl u k2 hout
          rw [← he] at hout
          cases hout
        · intro k2 hout
          rw [← he] at hout
          cases hout
          exact ⟨Nat.le_refl _, fun j h1 h2 => absurd h2 (by omega)⟩
        · intro k2 hout
          rw [← he] at hout
          cases hout
      | some pl =>
        rw [hnet] at he
        simp only [] at he
        cases hc : env.cancel k with
        | true =>
          rw [hc] at he
          simp only [if_true] at he
          refine ⟨?_, ?_, ?_⟩
          · intro pl2 u k2 hout
            rw [← he] at hout
            cases hout
          · intro k2 hout
            rw [← he] at hout
            cases hout
          · intro k2 hout
            rw [← he] at hout
            cases hout
        | false =>
          rw [hc] at he
          simp only [Bool.false_eq_true, if_false] at he
          cases hseg : pl.segments.isEmpty with
          | false =>
            rw [hseg] at he
            simp only [Bool.not_false, if_true] at he
            refine ⟨?_, ?_, ?_⟩
            · intro pl2 u k2 hout
              rw [← he] at hout
              cases hout
              exact ⟨by omega, fun j h1 h2 => by
                have hj : j = k := by omega
                rw [hj]; exact hc⟩
            · intro k2 hout
              rw [← he] at hout
              cases hout
            · intro k2 hout
              rw [← he] at hout
              cases hout
          | true =>
            rw [hseg] at he
            simp only [Bool.not_true, Bool.false_eq_true, if_false] at he
            cases hsel : select_variant_url pl.variants (baseOf url) target with
            | some vurl =>
              rw [hsel] at he
              simp only [] at he
              obtain ⟨r1, r2, r3⟩ := ih vurl (k + 1)
              refine ⟨?_, ?_, ?_⟩
              · intro pl2 u k2 hout
                rw [hout] at he
                obtain ⟨q1, q2⟩ := r1 pl2 u k2 he
                refine ⟨by omega, fun j h1 h2 => ?_⟩
                by_cases hj : j = k
                · rw [hj]; exact hc
                · exact q2 j (by omega) h2
              · intro k2 hout
                rw [hout] at he
                obtain ⟨q1, q2⟩ := r2 k2 he
                refine ⟨by omega, fun j h1 h2 => ?_⟩
                by_cases hj : j = k
                · rw [hj]; exact hc
                · exact q2 j (by omega) h2
              · intro k2 hout
                rw [hout] at he
                obtain ⟨q1, q2⟩ := r3 k2 he
                refine ⟨by omega, fun j h1 h2 => ?_⟩
                by_cases hj : j = k
                · rw [hj]; exact hc
                · exact q2 j (by omega) h2
            | none =>
              rw [hsel] at he
              simp only [] at he
              refine ⟨?_, ?_, ?_⟩
              · intro pl2 u k2 hout
                rw [← he] at hout
                cases hout
              · intro k2 hout
                rw [← he] at hout
                cases hout
              · intro k2 hout
                rw [← he] at hout
                cases hout
                exact ⟨by omega, fun j h1 h2 => by
                  have hj : j = k := by omega
                  rw [hj]; exact hc⟩
    exact ⟨fun pl u k2 he2 => (hbody _ he2).1 pl u k2 rfl,
           fun k2 he2 => (hbody _ he2).2.1 k2 rfl,
           fun k2 he2 => (hbody _ he2).2.2 k2 rfl⟩

theorem seedLoop_k_le (env : Env) (n : Nat) :
    ∀ (c : Nat) (st st2 : SchedSt), seedLoop env n c st = .done st2 → st.k ≤ st2.k :=
  fun c st st2 he => (seedLoop_done env n c st st2 he).1

theorem runScheduler_done_checks (env : Env) (maxW n k0 : Nat) (st : SchedSt)
    (he : runScheduler env maxW n k0 = .done st) :
    k0 ≤ st.k ∧ ∀ j, k0 ≤ j → j < st.k → env.cancel j = false := by
  unfold runScheduler at he
  cases hseed : seedLoop env n maxW (initSched k0) with
  | cancelled k hw =>
    rw [hseed] at he
    cases he
  | done st1 =>
    rw [hseed] at he
    simp only [] at he
    obtain ⟨g1, g2, _, _, _, _, _, _⟩ := seedLoop_done env n maxW (initSched k0) st1 hseed
    have hik : (initSched k0).k = k0 := rfl
    rw [hik] at g1 g2
    obtain ⟨d1, d2, _, _⟩ := schedLoop_done env n (maxW + n + 1) 0 st1 st he
    refine ⟨by omega, fun j h1 h2 => ?_⟩
    by_cases hj : j < st1.k
    · exact g2 j h1 hj
    · exact d2 j (by omega) h2

theorem retrySegLoop_spec (env : Env) (i : Nat) :
    ∀ (r k : Nat) (files : List (Nat × Nat)) (used sl : Nat),
      (∀ k2 f2 u2 s2, retrySegLoop env i r k files used sl = .done k2 f2 u2 s2 →
        k ≤ k2 ∧ (∀ j, k ≤ j → j < k2 → env.cancel j = false) ∧
        used ≤ u2 ∧ sl ≤ s2 ∧ u2 ≤ used + r ∧
        s2 - sl ≤ u2 - used ∧ u2 - used ≤ (s2 - sl) + 1) ∧
      (∀ k2, retrySegLoop env i r k files used sl = .exn k2 →
        k ≤ k2 ∧ ∀ j, k ≤ j → j < k2 → env.cancel j = false) := by
  intro r
  induction r with
  | zero =>
    intro k files used sl
    refine ⟨?_, ?_⟩
    · intro k2 f2 u2 s2 he
      unfold retrySegLoop at he
      cases he
      exact ⟨Nat.le_refl _, fun j h1 h2 => absurd h2 (by omega), Nat.le_refl _,
        Nat.le_refl _, by omega, by omega, by omega⟩
    · intro k2 he
      unfold retrySegLoop at he
      cases he
  | succ r ih =>
    intro k files used sl
    have hk : (downloadSegment env k i (used + 1)).1 = k + 1 := downloadSegment_k env k i _
    refine ⟨?_, ?_⟩
    · intro k2 f2 u2 s2 he
      unfold retrySegLoop at he
      rcases hds : downloadSegment env k i (used + 1) with ⟨k1, res, w⟩
      rw [hds] at he
      rw [hds] at hk
      simp only at hk
      cases res with
      | cancelled => simp at he
      | exn => simp at he
      | ok nsz =>
        simp only [] at he
        have hcf : env.cancel k = false := by
          apply downloadSegment_not_cancelled env k i (used + 1)
          rw [hds]
          simp
        by_cases hpos : 0 < nsz
        · rw [if_pos hpos] at he
          injection he with e1 e2 e3 e4
          refine ⟨by omega, fun j h1 h2 => ?_, by omega, by omega, by omega, by omega,
            by omega⟩
          have hj : j = k := by omega
          rw [hj]
          exact hcf
        · rw [if_neg hpos] at he
          obtain ⟨q1, q2, q3, q4, q5, q6, q7⟩ :=
            (ih k1 (applyWrite files w) (used + 1) (sl + 1)).1 k2 f2 u2 s2 he
          refine ⟨by omega, fun j h1 h2 => ?_, by omega, by omega, by omega, by omega,
            by omega⟩
          by_cases hj : j = k
          · rw [hj]; exact hcf
          · exact q2 j (by omega) h2
    · intro k2 he
      unfold retrySegLoop at he
      rcases hds : downloadSegment env k i (used + 1) with ⟨k1, res, w⟩
      rw [hds] at he
      rw [hds] at hk
      simp only at hk
      cases res with
      | cancelled => simp at he
      | exn =>
        simp only [] at he
        injection he with e1
        have hcf : env.cancel k = false := by
          apply downloadSegment_not_cancelled env k i (used + 1)
          rw [hds]
          simp
        refine ⟨by omega, fun j h1 h2 => ?_⟩
        have hj : j = k := by omega
        rw [hj]
        exact hcf
      | ok nsz =>
        simp only [] at he
        have hcf : env.cancel k = false := by
          apply downloadSegment_not_cancelled env k i (used + 1)
          rw [hds]
          simp
        by_cases hpos : 0 < nsz
        · rw [if_pos hpos] at he
          simp at he
        · rw [if_neg hpos] at he
          obtain ⟨q1, q2⟩ := (ih k1 (applyWrite files w) (used + 1) (sl + 1)).2 k2 he
          refine ⟨by omega, fun j h1 h2 => ?_⟩
          by_cases hj : j = k
          · rw [hj]; exact hcf
          · exact q2 j (by omega) h2

theorem retryPass_spec (env : Env) :
    ∀ (miss : List Nat) (k : Nat) (files : List (Nat × Nat)) (log : List (Nat × Nat × Nat)),
      (∀ k2 f2 log2, retryPass env miss k files log = .done k2 f2 log2 →
        k ≤ k2 ∧ (∀ j, k ≤ j → j < k2 → env.cancel j = false) ∧
        log2.map (fun e => e.1) = log.map (fun e => e.1) ++ miss ∧
        (∀ e, e ∈ log2 → e ∈ log ∨
          (e.2.1 ≤ 3 ∧ e.2.2 ≤ e.2.1 ∧ e.2.1 ≤ e.2.2 + 1))) ∧
      (∀ k2, retryPass env miss k files log = .exn k2 →
        k ≤ k2 ∧ ∀ j, k ≤ j → j < k2 → env.cancel j = false) := by
  intro miss
  induction miss with
  | nil =>
    intro k files log
    refine ⟨?_, ?_⟩
    · intro k2 f2 log2 he
      unfold retryPass at he
      injection he with e1 e2 e3
      subst e1
      subst e3
      exact ⟨Nat.le_refl _, fun j h1 h2 => absurd h2 (by omega), by simp,
        fun e hme => Or.inl hme⟩
    · intro k2 he
      unfold retryPass at he
      cases he
  | cons i rest ih =>
    intro k files log
    have hbody : ∀ (out : RetryOut), retryPass env (i :: rest) k files log = out →
        (∀ k2 f2 log2, out = .done k2 f2 log2 →
          k ≤ k2 ∧ (∀ j, k ≤ j → j < k2 → env.cancel j = false) ∧
          log2.map (fun e => e.1) = log.map (fun e => e.1) ++ (i :: rest) ∧
          (∀ e, e ∈ log2 → e ∈ log ∨
            (e.2.1 ≤ 3 ∧ e.2.2 ≤ e.2.1 ∧ e.2.1 ≤ e.2.2 + 1))) ∧
        (∀ k2, out = .exn k2 →
          k ≤ k2 ∧ ∀ j, k ≤ j → j < k2 → env.cancel j = false) := by
      intro out he
      unfold retryPass at he
      cases hc : env.cancel k with
      | true =>
        rw [hc] at he
        simp only [if_true] at he
        refine ⟨?_, ?_⟩
        · intro k2 f2 log2 hout
          rw [← he] at hout
          cases hout
        · intro k2 hout
          rw [← he] at hout
          cases hout
      | false =>
        rw [hc] at he
        simp only [Bool.false_eq_true, if_false] at he
        cases hrs : retrySegLoop env i 3 (k + 1) files 0 0 with
        | cancelled k2a =>
          rw [hrs] at he
          simp only [] at he
          refine ⟨?_, ?_⟩
          · intro k2 f2 log2 hout
            rw [← he] at hout
            cases hout
          · intro k2 hout
            rw [← he] at hout
            cases hout
        | exn k2a =>
          rw [hrs] at he
          simp only [] at he
          obtain ⟨q1, q2⟩ := (retrySegLoop_spec env i 3 (k + 1) files 0 0).2 k2a hrs
          refine ⟨?_, ?_⟩
          · intro k2 f2 log2 hout
            rw [← he] at hout
            cases hout
          · intro k2 hout
            rw [← he] at hout
            cases hout
            refine ⟨by omega, fun j h1 h2 => ?_⟩
            by_cases hj : j = k
            · rw [hj]; exact hc
            · exact q2 j (by omega) h2
        | done k2a files2 used sl =>
          rw [hrs] at he
          simp only [] at he
          obtain ⟨q1, q2, q3, q4, q5, q6, q7⟩ :=
            (retrySegLoop_spec env i 3 (k + 1) files 0 0).1 k2a files2 used sl hrs
          obtain ⟨ihd, ihe⟩ := ih k2a files2 (log ++ [(i, used, sl)])
          refine ⟨?_, ?_⟩
          · intro k2 f2 log2 hout
            rw [hout] at he
            obtain ⟨r1, r2, r3, r4⟩ := ihd k2 f2 log2 he
            refine ⟨by omega, fun j h1 h2 => ?_, ?_, ?_⟩
            · by_cases hj : j = k
              · rw [hj]; exact hc
              · by_cases hj2 : j < k2a
                · exact q2 j (by omega) hj2
                · exact r2 j (by omega) h2
            · rw [r3]
              simp
            · intro e hme
              rcases r4 e hme with hin | hb
              · rcases List.mem_append.mp hin with hin2 | hin2
                · exact Or.inl hin2
                · have hee : e = (i, used, sl) := by
                    simpa using hin2
                  refine Or.inr ?_
                  rw [hee]
                  show used ≤ 3 ∧ sl ≤ used ∧ used ≤ sl + 1
                  omega
              · exact Or.inr hb
          · intro k2 hout
            rw [hout] at he
            obtain ⟨r1, r2⟩ := ihe k2 he
            refine ⟨by omega, fun j h1 h2 => ?_⟩
            by_cases hj : j = k
            · rw [hj]; exact hc
            · by_cases hj2 : j < k2a
              · exact q2 j (by omega) hj2
              · exact r2 j (by omega) h2
    exact ⟨fun k2 f2 log2 he2 => (hbody _ he2).1 k2 f2 log2 rfl,
           fun k2 he2 => (hbody _ he2).2 k2 rfl⟩

theorem download_temp (env : Env) (url : String) (maxW : Nat) (pref : Option String) :
    (download env url maxW pref).tempRemoved = (download env url maxW pref).tempCreated := by
  simp only [download]
  repeat' split
  all_goals rfl

theorem download_checks (env : Env) (url : String) (maxW : Nat) (pref : Option String)
    (h : (download env url maxW pref).outcome ≠ .cancelled) :
    ∀ j, j < (download env url maxW pref).checks → env.cancel j = false := by
  unfold download at h ⊢
  cases hc0 : env.cancel 0 with
  | true =>
    rw [hc0] at h
    rw [if_pos rfl] at h
    exact absurd rfl h
  | false =>
    rw [hc0] at h
    rw [if_neg (by simp)] at h
    rw [if_neg (by simp)]
    rcases hres : resolveLoop env (parseTargetHeight pref) 2 url 1 with k | k | k | ⟨pl, murl, k⟩
    · rw [hres] at h
      exact absurd rfl h
    · rw [hres] at h
      obtain ⟨q1, q2⟩ := (resolveLoop_checks env (parseTargetHeight pref) 2 url 1).2.1 k hres
      intro j hj
      have hj2 : j < k := hj
      by_cases h0 : j = 0
      · rw [h0]; exact hc0
      · exact q2 j (by omega) hj2
    · rw [hres] at h
      obtain ⟨q1, q2⟩ := (resolveLoop_checks env (parseTargetHeight pref) 2 url 1).2.2 k hres
      intro j hj
      have hj2 : j < k := hj
      by_cases h0 : j = 0
      · rw [h0]; exact hc0
      · exact q2 j (by omega) hj2
    · rw [hres] at h
      simp only [] at h ⊢
      obtain ⟨q1, q2⟩ := (resolveLoop_checks env (parseTargetHeight pref) 2 url 1).1 pl murl k hres
      rcases hrun : runScheduler env maxW pl.segments.length k with ⟨k2, hw⟩ | st
      · rw [hrun] at h
        exact absurd rfl h
      · rw [hrun] at h
        simp only [] at h ⊢
        obtain ⟨r1, r2⟩ := runScheduler_done_checks env maxW pl.segments.length k st hrun
        cases hcs : env.cancel st.k with
        | true =>
          rw [hcs] at h
          rw [if_pos rfl] at h
          exact absurd rfl h
        | false =>
          rw [hcs] at h
          rw [if_neg (by simp)] at h
          rw [if_neg (by simp)]
          have hstep : ∀ out,
              (if st.failed.isEmpty then RetryOut.done (st.k + 1) st.files []
               else retryPass env (missingOf pl.segments.length st.files)
                      (st.k + 1) st.files []) = out →
              (∀ k3 f2 log2, out = .done k3 f2 log2 →
                st.k + 1 ≤ k3 ∧ ∀ j, st.k + 1 ≤ j → j < k3 → env.cancel j = false) ∧
              (∀ k3, out = .exn k3 →
                st.k + 1 ≤ k3 ∧ ∀ j, st.k + 1 ≤ j → j < k3 → env.cancel j = false) := by
            intro out hout
            cases hfe : st.failed.isEmpty with
            | true =>
              rw [hfe] at hout
              rw [if_pos rfl] at hout
              constructor
              · intro k3 f2 log2 hdone
                rw [← hout] at hdone
                injection hdone with e1 e2 e3
                subst e1
                exact ⟨Nat.le_refl _, fun j h1 h2 => absurd h2 (by omega)⟩
              · intro k3 hdone
                rw [← hout] at hdone
                cases hdone
            | false =>
              rw [hfe] at hout
              rw [if_neg (by simp)] at hout
              obtain ⟨p1, p2⟩ := retryPass_spec env (missingOf pl.segments.length st.files)
                (st.k + 1) st.files []
              constructor
              · intro k3 f2 log2 hdone
                rw [hdone] at hout
                obtain ⟨w1, w2, _, _⟩ := p1 k3 f2 log2 hout
                exact ⟨w1, w2⟩
              · intro k3 hdone
                rw [hdone] at hout
                exact p2 k3 hout
          rcases hret : (if st.failed.isEmpty then RetryOut.done (st.k + 1) st.files []
              else retryPass env (missingOf pl.segments.length st.files)
                     (st.k + 1) st.files []) with k3 | k3 | ⟨k3, files2, log⟩
          · rw [hret] at h
            exact absurd rfl h
          · rw [hret] at h
            obtain ⟨w1, w2⟩ := (hstep _ hret).2 k3 rfl
            intro j hj
            have hj2 : j < k3 := hj
            by_cases h0 : j = 0
            · rw [h0]; exact hc0
            · by_cases hA : j < k
              · exact q2 j (by omega) hA
              · by_cases hB : j < st.k
                · exact r2 j (by omega) hB
                · by_cases hC : j = st.k
                  · rw [hC]; exact hcs
                  · exact w2 j (by omega) hj2
          · rw [hret] at h
            simp only [] at h ⊢
            obtain ⟨w1, w2⟩ := (hstep _ hret).1 k3 files2 log rfl
            cases hc3 : env.cancel k3 with
            | true =>
              rw [hc3] at h
              rw [if_pos rfl] at h
              exact absurd rfl h
            | false =>
              rw [hc3] at h
              rw [if_neg (by simp)] at h
              rw [if_neg (by simp)]
              have hall : ∀ j, j < k3 + 1 → env.cancel j = false := by
                intro j hj
                by_cases h0 : j = 0
                · rw [h0]; exact hc0
                · by_cases hA : j < k
                  · exact q2 j (by omega) hA
                  · by_cases hB : j < st.k
                    · exact r2 j (by omega) hB
                    · by_cases hC : j = st.k
                      · rw [hC]; exact hcs
                      · by_cases hD : j < k3
                        · exact w2 j (by omega) hD
                        · have hk3 : j = k3 := by omega
                          rw [hk3]; exact hc3
              cases hrm : env.remuxOk with
              | true =>
                rw [if_pos rfl]
                exact fun j hj => hall j hj
              | false =>
                rw [if_neg (by simp)]
                exact fun j hj => hall j hj

/-- C2: if the cancellation signal is set at any is_set() call that the run
actually executes — at entry, during playlist resolution, in the seed loop,
after draining a completion, before a post-pass retry, or before remux — then
download raises DownloadCancelled (it never returns success or a generic
failure), and the temp directory, if it was created, is removed before the
cancellation propagates. -/
theorem c2_cancellation (env : Env) (url : String) (maxW : Nat) (pref : Option String)
    (h : ∃ j, j < (download env url maxW pref).checks ∧ env.cancel j = true) :
    (download env url maxW pref).outcome = .cancelled ∧
    ((download env url maxW pref).tempCreated = true →
      (download env url maxW pref).tempRemoved = true) := by
  obtain ⟨j, hj, hc⟩ := h
  by_cases ho : (download env url maxW pref).outcome = .cancelled
  · refine ⟨ho, fun ht => ?_⟩
    rw [download_temp, ht]
  · have hf := download_checks env url maxW pref ho j hj
    rw [hf] at hc
    exact absurd hc (by decide)

theorem c2_witness :
    (∃ j, j < (download c2env "http://h/x.m3u8" 1 none).checks ∧ c2env.cancel j = true) ∧
    (download c2env "http://h/x.m3u8" 1 none).outcome = .cancelled := by
  have hex : ∃ j, j < (download c2env "http://h/x.m3u8" 1 none).checks ∧
      c2env.cancel j = true := ⟨0, by decide, rfl⟩
  exact ⟨hex, (c2_cancellation c2env "http://h/x.m3u8" 1 none hex).1⟩

theorem c9_witness :
    hwOf (runScheduler c9env 2 5 0) ≤ 2 ∧ c9doneSt.pending = [] ∧ c9doneSt.nextIdx = 5 := by
  have h := c9_bounded_concurrency c9env 2 5 0
  have heq : runScheduler c9env 2 5 0 = .done c9doneSt := by decide
  exact ⟨h.1, (h.2 c9doneSt heq).1, ((h.2 c9doneSt heq).2.2 (by decide)).1⟩

/-- C6 counterexample: three different terminal situations — a playlist with no
segments, a remux-process failure, and a segment whose retry budget is exhausted —
do not reach the caller as distinguishable signals.  The first two runs both
return the same generic failure value, and the third is not terminal at all: the
run returns success even though segment 0 failed all its retry attempts and its
file is still missing. -/
theorem c6_counterexample :
    (download c6envNoSeg "http://h/x.m3u8" 2 none).outcome = .failedGeneric ∧
    (download c6envRemux "http://h/x.m3u8" 2 none).outcome = .failedGeneric ∧
    resolveLoop c6envNoSeg (parseTargetHeight none) 2 "http://h/x.m3u8" 1 = .noSegments 2 ∧
    (download c6envRemux "http://h/x.m3u8" 2 none).manifest.isSome = true ∧
    c6envRemux.remuxOk = false ∧
    (download c6envExhaust "http://h/x.m3u8" 2 none).outcome = .success ∧
    (download c6envExhaust "http://h/x.m3u8" 2 none).failedSegs = [0] ∧
    (download c6envExhaust "http://h/x.m3u8" 2 none).retryLog = [(0, 3, 3)] ∧
    (download c6envExhaust "http://h/x.m3u8" 2 none).files = [] := by
  decide

/-- C6 (amended): NoSegmentsFound and a failed playlist fetch make download
return the generic failure value without ever creating the temp directory; and
a remux-process failure can never be reported as success — but none of these
signals are distinguishable from one another at the caller, and retry
exhaustion is not terminal (see the counterexample). -/
theorem c6_error_signals (env : Env) (url : String) (maxW : Nat) (pref : Option String) :
    (env.cancel 0 = false →
      ∀ k, resolveLoop env (parseTargetHeight pref) 2 url 1 = .noSegments k →
        (download env url maxW pref).outcome = .failedGeneric ∧
        (download env url maxW pref).tempCreated = false) ∧
    (env.cancel 0 = false →
      ∀ k, resolveLoop env (parseTargetHeight pref) 2 url 1 = .fetchFail k →
        (download env url maxW pref).outcome = .failedGeneric ∧
        (download env url maxW pref).tempCreated = false) ∧
    (env.remuxOk = false → (download env url maxW pref).outcome ≠ .success) := by
  refine ⟨?_, ?_, ?_⟩
  · intro hc0 k hres
    unfold download
    rw [hc0]
    rw [if_neg (by simp)]
    rw [hres]
    exact ⟨rfl, rfl⟩
  · intro hc0 k hres
    unfold download
    rw [hc0]
    rw [if_neg (by simp)]
    rw [hres]
    exact ⟨rfl, rfl⟩
  · intro hrm
    simp only [download]
    repeat' split
    all_goals simp_all

theorem c6_witness :
    c6envNoSeg.cancel 0 = false ∧
    resolveLoop c6envNoSeg (parseTargetHeight none) 2 "http://h/x.m3u8" 1 = .noSegments 2 ∧
    (download c6envNoSeg "http://h/x.m3u8" 2 none).outcome = .failedGeneric ∧
    (download c6envNoSeg "http://h/x.m3u8" 2 none).tempCreated = false ∧
    c6envRemux.remuxOk = false ∧
    (download c6envRemux "http://h/x.m3u8" 2 none).outcome ≠ .success := by
  refine ⟨rfl, by decide, ?_, ?_, rfl, ?_⟩
  · exact ((c6_error_signals c6envNoSeg "http://h/x.m3u8" 2 none).1 rfl 2 (by decide)).1
  · exact ((c6_error_signals c6envNoSeg "http://h/x.m3u8" 2 none).1 rfl 2 (by decide)).2
  · exact (c6_error_signals c6envRemux "http://h/x.m3u8" 2 none).2.2 rfl

/-- C7 counterexample: segment 0 exhausts the full retry budget (3 attempts,
a sleep after each failure) and its file is still missing, yet the download
attempt does not terminate as a failure — it returns success, because nothing
after the retry loop checks the remaining failures. -/
theorem c7_counterexample :
    (download c7env "http://h/x.m3u8" 2 none).retryLog = [(0, 3, 3)] ∧
    (download c7env "http://h/x.m3u8" 2 none).files = [] ∧
    (download c7env "http://h/x.m3u8" 2 none).failedSegs = [0] ∧
    (download c7env "http://h/x.m3u8" 2 none).outcome = .success := by
  decide

/-- C7 (amended): the post-pass retry processes the missing segments serially
and in order, one log entry (segment, attempts, sleeps) per segment, each with
at most 3 attempts and a sleep after every failed attempt, with a cancellation
check before every segment; but exhaustion of the budget is NOT terminal: once
the run reaches the manifest, the outcome is decided by the remux step alone,
regardless of the failed segments. -/
theorem c7_retry_budget (env : Env) (url : String) (maxW : Nat) (pref : Option String)
    (miss : List Nat) (k : Nat) (files : List (Nat × Nat)) (k2 : Nat)
    (f2 : List (Nat × Nat)) (log2 : List (Nat × Nat × Nat))
    (h : retryPass env miss k files [] = .done k2 f2 log2) :
    (log2.map (fun e => e.1) = miss ∧
     (∀ e, e ∈ log2 → e.2.1 ≤ 3 ∧ e.2.2 ≤ e.2.1 ∧ e.2.1 ≤ e.2.2 + 1) ∧
     (∀ j, k ≤ j → j < k2 → env.cancel j = false)) ∧
    ((download env url maxW pref).manifest.isSome = true → env.remuxOk = true →
      (download env url maxW pref).outcome ≠ .cancelled →
      (download env url maxW pref).outcome = .success) := by
  obtain ⟨p1, p2⟩ := retryPass_spec env miss k files []
  obtain ⟨q1, q2, q3, q4⟩ := p1 k2 f2 log2 h
  refine ⟨⟨by simpa using q3, ?_, q2⟩, ?_⟩
  · intro e hme
    rcases q4 e hme with hin | hb
    · simp at hin
    · exact hb
  · intro hman hrm hout
    simp only [download] at hman hout ⊢
    revert hman hout
    repeat' split
    all_goals intro hman hout
    all_goals simp_all [baseResult]

theorem c7_witness :
    retryPass c7env [0] 1 [] [] = .done 5 [] [(0, 3, 3)] ∧
    ([(0, 3, 3)] : List (Nat × Nat × Nat)).map (fun e => e.1) = [0] ∧
    (3 ≤ 3 ∧ 3 ≤ 3 ∧ 3 ≤ 3 + 1) ∧
    (download c7env "http://h/x.m3u8" 2 none).outcome = .success := by
  have h : retryPass c7env [0] 1 [] [] = .done 5 [] [(0, 3, 3)] := by decide
  have hc := c7_retry_budget c7env "http://h/x.m3u8" 2 none [0] 1 [] 5 [] [(0, 3, 3)] h
  refine ⟨h, hc.1.1, ?_, hc.2 (by decide) rfl (by decide)⟩
  exact hc.1.2.1 (0, 3, 3) (by simp)

/-- C10 counterexample: a playlist declares an encryption key whose fetch
returns a falsy result.  No key file is written and the URI in the serialized
manifest stays the absolutized remote URL — the manifest is not self-contained
— yet the run still reports success. -/
theorem c10_counterexample :
    (download c10env "http://h/x.m3u8" 2 none).manifest =
      some ([some { uri := "http://h/k.bin" }], ["seg_00000.ts"]) ∧
    (download c10env "http://h/x.m3u8" 2 none).keyFiles = [] ∧
    (download c10env "http://h/x.m3u8" 2 none).outcome = .success := by
  decide

/-- C10 (amended): for every declared key with a non-empty URI, if the key fetch
returns truthy content the key is saved as key.key and the playlist model's URI
is rewritten to that local filename; but if the fetch returns falsy content, the
URI is rewritten to the absolutized remote URL instead and no local key file is
written, so the manifest is self-contained only when every key fetch succeeds. -/
theorem c10_key_handling (env : Env) (base : String) :
    ∀ (keys : List (Option HLSKey)),
      (processKeys env base keys).1.length = keys.length ∧
      (∀ (i : Nat) (key : HLSKey), keys[i]? = some (some key) → key.uri ≠ "" →
        ((∃ c, env.keyFetch (absolutize base key.uri) = some c ∧
            (processKeys env base keys).1[i]? = some (some { uri := "key.key" }) ∧
            ("key.key", c) ∈ (processKeys env base keys).2) ∨
         (env.keyFetch (absolutize base key.uri) = none ∧
            (processKeys env base keys).1[i]? =
              some (some { uri := absolutize base key.uri })))) := by
  intro keys
  induction keys with
  | nil =>
    refine ⟨rfl, fun i key h hne => ?_⟩
    simp at h
  | cons k0 rest ih =>
    obtain ⟨ih1, ih2⟩ := ih
    cases k0 with
    | none =>
      refine ⟨?_, ?_⟩
      · show (none :: (processKeys env base rest).1).length = rest.length + 1
        simp [ih1]
      · intro i key h hne
        cases i with
        | zero =>
          rw [List.getElem?_cons_zero] at h
          simp at h
        | succ i2 =>
          rw [List.getElem?_cons_succ] at h
          have hr := ih2 i2 key h hne
          simpa [processKeys, List.getElem?_cons_succ] using hr
    | some key0 =>
      refine ⟨?_, ?_⟩
      · by_cases hu : key0.uri = ""
        · have hbeq : (key0.uri == "") = true := by simp [hu]
          simp [processKeys, hbeq, ih1]
        · have hbeq : (key0.uri == "") = false := by simp [hu]
          cases hkf : env.keyFetch (absolutize base key0.uri) with
          | some c => simp [processKeys, hbeq, hkf, ih1]
          | none => simp [processKeys, hbeq, hkf, ih1]
      · intro i key h hne
        cases i with
        | zero =>
          rw [List.getElem?_cons_zero] at h
          have hk : key = key0 := by
            injection h with h2
            injection h2 with h3
            exact h3.symm
          subst hk
          have hbeq : (key.uri == "") = false := by simp [hne]
          cases hkf : env.keyFetch (absolutize base key.uri) with
          | some c =>
            refine Or.inl ⟨c, rfl, ?_, ?_⟩
            · simp [processKeys, hbeq, hkf]
            · simp [processKeys, hbeq, hkf]
          | none =>
            refine Or.inr ⟨rfl, ?_⟩
            simp [processKeys, hbeq, hkf]
        | succ i2 =>
          rw [List.getElem?_cons_succ] at h
          have hr := ih2 i2 key h hne
          by_cases hu : key0.uri = ""
          · have hbeq : (key0.uri == "") = true := by simp [hu]
            rcases hr with ⟨c, hc1, hc2, hc3⟩ | ⟨hn1, hn2⟩
            · refine Or.inl ⟨c, hc1, ?_, ?_⟩
              · simp [processKeys, hbeq, hc2]
              · simp [processKeys, hbeq]
                exact hc3
            · exact Or.inr ⟨hn1, by simp [processKeys, hbeq, hn2]⟩
          · have hbeq : (key0.uri == "") = false := by simp [hu]
            cases hkf : env.keyFetch (absolutize base key0.uri) with
            | some c0 =>
              rcases hr with ⟨c, hc1, hc2, hc3⟩ | ⟨hn1, hn2⟩
              · refine Or.inl ⟨c, hc1, ?_, ?_⟩
                · simp [processKeys, hbeq, hkf, hc2]
                · simp [processKeys, hbeq, hkf]
                  exact Or.inr hc3
              · exact Or.inr ⟨hn1, by simp [processKeys, hbeq, hkf, hn2]⟩
            | none =>
              rcases hr with ⟨c, hc1, hc2, hc3⟩ | ⟨hn1, hn2⟩
              · refine Or.inl ⟨c, hc1, ?_, ?_⟩
                · simp [processKeys, hbeq, hkf, hc2]
                · simp [processKeys, hbeq, hkf]
                  exact hc3
              · exact Or.inr ⟨hn1, by simp [processKeys, hbeq, hkf, hn2]⟩

theorem c10_witness :
    ([some { uri := "k.bin" }] : List (Option HLSKey))[0]? = some (some { uri := "k.bin" }) ∧
    ({ uri := "k.bin" } : HLSKey).uri ≠ "" ∧
    c10envOk.keyFetch (absolutize "http://h/" "k.bin") = some 16 ∧
    (processKeys c10envOk "http://h/" [some { uri := "k.bin" }]).1[0]? =
      some (some { uri := "key.key" }) ∧
    ("key.key", 16) ∈ (processKeys c10envOk "http://h/" [some { uri := "k.bin" }]).2 := by
  have h := (c10_key_handling c10envOk "http://h/" [some { uri := "k.bin" }]).2 0
    { uri := "k.bin" } rfl (by decide)
  rcases h with ⟨c, hc1, hc2, hc3⟩ | hr
  · have h16 : (some 16 : Option Nat) = some c := by
      rw [← hc1]
      rfl
    injection h16 with he
    subst he
    exact ⟨rfl, by decide, hc1, hc2, hc3⟩
  · exact absurd hr.1 (by decide)

end MrBanana
